import Mathlib

/-!
# Verification of the tenzir_exporter record pipeline

Shallow embedding of `src/tenzir_exporter.py` (`AppMetrics.fetch`):

* the batch splitter (lines 208-217): join the request lines, repair the
  `}{` adjacencies into `},{`, wrap in `[` `]` and parse as one JSON array
  (`json.loads` is modelled by a standard JSON parser over `List Char`);
* the record classifier and mapper (lines 218-305): the sequence of
  independent `if` branches that inspect key presence and update the
  Prometheus gauges and infos (the `prometheus_client` behaviour of a
  labelled parent metric and of `Info` is modelled from that library:
  calling `set` on a labelled parent raises `ValueError`, `Info` has no
  `set` attribute);
* duration normalisation (line 259-265): `re.sub("[a-z]", "", s)`.

Python strings are modelled as `List Char`; gauge/info updates become
`Instr` values collected in a trace, and exceptions become an `Option
PyErr` that aborts the rest of the computation, matching the absence of
any try/except around the record loop.
-/

/-- Convert a Lean string literal to the `List Char` representation used
throughout for Python strings. -/
def toCh (s : String) : List Char := s.toList

/-- JSON whitespace as accepted between tokens by `json.loads`. -/
def isWs (c : Char) : Bool := c = ' ' || c = '\t' || c = '\n' || c = '\r'

/-- Drop leading JSON whitespace. -/
def skipWs : List Char → List Char
  | [] => []
  | c :: r => if isWs c then skipWs r else c :: r

/-- Characters that can occur in a JSON numeric literal. -/
def numChar (c : Char) : Bool :=
  (48 ≤ c.toNat && c.toNat ≤ 57) || c = '-' || c = '+' || c = '.' || c = 'e' || c = 'E'

/-- Model of Python `s.replace("}{", "},{")`: scan left to right, and at
every occurrence of `}` immediately followed by `{` insert a comma
(occurrences of the two-character pattern cannot overlap, so the
left-to-right scan replaces exactly the set of occurrences). -/
def pyReplace : List Char → List Char
  | [] => []
  | [c] => [c]
  | c :: d :: r =>
    if c = '}' ∧ d = '{' then '}' :: ',' :: '{' :: pyReplace r
    else c :: pyReplace (d :: r)

/-- Continuation of `pyReplace` after a prefix whose last character is `p`:
if `p` is `}` and the rest starts with `{`, the boundary pair is an
occurrence and a comma is inserted. -/
def pyRepCont (p : Char) (rest : List Char) : List Char :=
  if p = '}' ∧ rest.head? = some '{' then ',' :: pyReplace rest else pyReplace rest

/-- Model of `re.sub(r"[a-z]", "", s)` (line 259-265 of the source):
remove every lowercase ASCII letter, wherever it occurs. -/
def stripLower : List Char → List Char
  | [] => []
  | c :: r => if 'a' ≤ c ∧ c ≤ 'z' then stripLower r else c :: stripLower r

/-- Is the character a lowercase ASCII letter (the class `[a-z]`)? -/
def isLowerAZ (c : Char) : Bool := 'a' ≤ c && c ≤ 'z'

/-- JSON values, the model of what `json.loads` produces.  Numbers keep
their literal text (no floating point is needed by any claim); objects are
association lists in document order. -/
inductive JVal where
  | null : JVal
  | bool : Bool → JVal
  | num : List Char → JVal
  | str : List Char → JVal
  | arr : List JVal → JVal
  | obj : List (List Char × JVal) → JVal

/-- The characters `json.dumps` emits for one string-body character
(quote, backslash and the common control characters get a two-character
escape; everything else is kept verbatim, and the well-formedness
predicate excludes the rest of the control range). -/
def escPre (c : Char) : List Char :=
  if c = '"' then ['\\', '"']
  else if c = '\\' then ['\\', '\\']
  else if c = '\n' then ['\\', 'n']
  else if c = '\t' then ['\\', 't']
  else if c = '\r' then ['\\', 'r']
  else [c]

/-- Escape a string body the way `json.dumps` renders it. -/
def escape : List Char → List Char
  | [] => []
  | c :: r => escPre c ++ escape r

/-- Render a JSON string literal. -/
def renderStr (s : List Char) : List Char := '"' :: escape s ++ ['"']

/-- The rendered `null` keyword. -/
def nullTok : List Char := 'n' :: 'u' :: 'l' :: 'l' :: []

/-- The rendered `true` keyword. -/
def trueTok : List Char := 't' :: 'r' :: 'u' :: 'e' :: []

/-- The rendered `false` keyword. -/
def falseTok : List Char := 'f' :: 'a' :: 'l' :: 's' :: 'e' :: []

mutual

/-- Compact rendering of a JSON value (no whitespace), defining what a
"valid JSON object literal" is for the splitter claims. -/
def render : JVal → List Char
  | .null => nullTok
  | .bool true => trueTok
  | .bool false => falseTok
  | .num d => d
  | .str s => renderStr s
  | .arr xs => '[' :: renderElems xs ++ [']']
  | .obj fs => '{' :: renderFields fs ++ ['}']

/-- Render array elements separated by commas. -/
def renderElems : List JVal → List Char
  | [] => []
  | [v] => render v
  | v :: vs => render v ++ ',' :: renderElems vs

/-- Render object fields separated by commas. -/
def renderFields : List (List Char × JVal) → List Char
  | [] => []
  | [(k, v)] => renderStr k ++ ':' :: render v
  | (k, v) :: fs => renderStr k ++ ':' :: render v ++ ',' :: renderFields fs

end

mutual

/-- The value obtained from a JSON value when the `}{` repair runs over its
rendering: every string body (and key) gets a comma inserted at each
`}{` adjacency; everything else is unchanged. -/
def commaFix : JVal → JVal
  | .null => .null
  | .bool b => .bool b
  | .num d => .num d
  | .str s => .str (pyReplace s)
  | .arr xs => .arr (commaFixList xs)
  | .obj fs => .obj (commaFixFields fs)

/-- `commaFix` on array elements. -/
def commaFixList : List JVal → List JVal
  | [] => []
  | v :: vs => commaFix v :: commaFixList vs

/-- `commaFix` on object fields. -/
def commaFixFields : List (List Char × JVal) → List (List Char × JVal)
  | [] => []
  | (k, v) :: fs => (pyReplace k, commaFix v) :: commaFixFields fs

end

/-- A string body character the embedding's renderer/parser round-trips:
everything except the control characters that `json.dumps` would escape as
`\uXXXX` (newline, tab and carriage return are escaped explicitly). -/
def okChar (c : Char) : Bool :=
  (32 ≤ c.toNat) || c = '\n' || c = '\t' || c = '\r'

/-- Does a character list start with at least one digit? -/
def hasDigit : List Char → Bool
  | c :: _ => c.isDigit
  | [] => false

/-- Drop leading ASCII digits. -/
def dropDigits (s : List Char) : List Char := s.dropWhile Char.isDigit

/-- Exponent part of a JSON number: empty, or `e`/`E` with optionally
signed digits. -/
def validExp : List Char → Bool
  | [] => true
  | 'e' :: r => (if r.head? = some '+' ∨ r.head? = some '-' then
      hasDigit r.tail && (dropDigits r.tail).isEmpty
    else hasDigit r && (dropDigits r).isEmpty)
  | 'E' :: r => (if r.head? = some '+' ∨ r.head? = some '-' then
      hasDigit r.tail && (dropDigits r.tail).isEmpty
    else hasDigit r && (dropDigits r).isEmpty)
  | _ => false

/-- Fraction-then-exponent part of a JSON number. -/
def validFrac : List Char → Bool
  | '.' :: r => hasDigit r && validExp (dropDigits r)
  | r => validExp r

/-- JSON number grammar `-?(0|[1-9][0-9]*)(\.[0-9]+)?([eE][+-]?[0-9]+)?`. -/
def validNum (s : List Char) : Bool :=
  let s1 := match s with
    | '-' :: r => r
    | r => r
  match s1 with
  | '0' :: r => validFrac r
  | c :: r => c.isDigit && validFrac (dropDigits r)
  | [] => false

mutual

/-- Well-formedness of a JSON value in this embedding: numeric literals
obey the JSON grammar (and, redundantly but conveniently, consist of
numeric characters), and string bodies avoid the unescaped control range. -/
def wf : JVal → Bool
  | .null => true
  | .bool _ => true
  | .num d => validNum d && d.all numChar
  | .str s => s.all okChar
  | .arr xs => wfList xs
  | .obj fs => wfFields fs

/-- `wf` on array elements. -/
def wfList : List JVal → Bool
  | [] => true
  | v :: vs => wf v && wfList vs

/-- `wf` on object fields. -/
def wfFields : List (List Char × JVal) → Bool
  | [] => true
  | (k, v) :: fs => k.all okChar && wf v && wfFields fs

end

/-- Is the value a JSON object? -/
def isObjV : JVal → Bool
  | .obj _ => true
  | _ => false

/-- Match a literal prefix, returning the remainder on success. -/
def chomp : List Char → List Char → Option (List Char)
  | [], s => some s
  | p :: ps, c :: cs => if c = p then chomp ps cs else none
  | _ :: _, [] => none

/-- Unescape one escaped character of a JSON string (the `\uXXXX` form is
not modelled; no rendered input contains it). -/
def unesc (e : Char) : Char :=
  if e = 'n' then '\n'
  else if e = 't' then '\t'
  else if e = 'r' then '\r'
  else if e = 'b' then Char.ofNat 8
  else if e = 'f' then Char.ofNat 12
  else e

/-- Parse a JSON string body after the opening quote, up to and including
the closing quote; returns the body and the remainder. -/
def parseStr : List Char → Option (List Char × List Char)
  | [] => none
  | c :: r =>
    if c = '"' then some ([], r)
    else if c = '\\' then
      match r with
      | [] => none
      | e :: r2 =>
        match parseStr r2 with
        | some (cs, r3) => some (unesc e :: cs, r3)
        | none => none
    else
      match parseStr r with
      | some (cs, r3) => some (c :: cs, r3)
      | none => none

/-- Parse a JSON number: take the maximal run of numeric characters and
accept when it is a valid numeric literal.  This agrees with the regex
based scanner of `json.loads` on success and failure alike, because a
prefix match followed by a leftover numeric character is a delimiter
error there. -/
def parseNum (s : List Char) : Option (JVal × List Char) :=
  if validNum (s.takeWhile numChar) then
    some (.num (s.takeWhile numChar), s.dropWhile numChar)
  else none

mutual

/-- Fuel-indexed recursive-descent JSON value parser, the model of
`json.loads` (whitespace between tokens, strict number grammar). -/
def parseVal : Nat → List Char → Option (JVal × List Char)
  | 0, _ => none
  | fuel + 1, s0 =>
    match skipWs s0 with
    | [] => none
    | c :: r =>
      if c = 'n' then
        match chomp ['u', 'l', 'l'] r with
        | some r2 => some (.null, r2)
        | none => none
      else if c = 't' then
        match chomp ['r', 'u', 'e'] r with
        | some r2 => some (.bool true, r2)
        | none => none
      else if c = 'f' then
        match chomp ['a', 'l', 's', 'e'] r with
        | some r2 => some (.bool false, r2)
        | none => none
      else if c = '"' then
        match parseStr r with
        | some (cs, r2) => some (.str cs, r2)
        | none => none
      else if c = '[' then
        match skipWs r with
        | [] => none
        | d :: r2 =>
          if d = ']' then some (.arr [], r2)
          else
            match parseElems fuel r with
            | some (vs, r3) =>
              match skipWs r3 with
              | [] => none
              | e :: r4 => if e = ']' then some (.arr vs, r4) else none
            | none => none
      else if c = '{' then
        match skipWs r with
        | [] => none
        | d :: r2 =>
          if d = '}' then some (.obj [], r2)
          else
            match parseFields fuel r with
            | some (fs, r3) =>
              match skipWs r3 with
              | [] => none
              | e :: r4 => if e = '}' then some (.obj fs, r4) else none
            | none => none
      else if numChar c then parseNum (c :: r)
      else none

/-- Parse one or more comma-separated array elements; stops (without
consuming) at the first non-comma after an element. -/
def parseElems : Nat → List Char → Option (List JVal × List Char)
  | 0, _ => none
  | fuel + 1, s =>
    match parseVal fuel s with
    | some (v, r) =>
      match skipWs r with
      | [] => some ([v], r)
      | d :: r2 =>
        if d = ',' then
          match parseElems fuel r2 with
          | some (vs, r3) => some (v :: vs, r3)
          | none => none
        else some ([v], r)
    | none => none

/-- Parse one or more comma-separated `"key": value` object members. -/
def parseFields : Nat → List Char → Option (List (List Char × JVal) × List Char)
  | 0, _ => none
  | fuel + 1, s =>
    match skipWs s with
    | [] => none
    | c :: r =>
      if c = '"' then
        match parseStr r with
        | some (k, r2) =>
          match skipWs r2 with
          | [] => none
          | d :: r3 =>
            if d = ':' then
              match parseVal fuel r3 with
              | some (v, r4) =>
                match skipWs r4 with
                | [] => some ([(k, v)], r4)
                | e :: r5 =>
                  if e = ',' then
                    match parseFields fuel r5 with
                    | some (fs, r6) => some ((k, v) :: fs, r6)
                    | none => none
                  else some ([(k, v)], r4)
              | none => none
            else none
        | none => none
      else none

end

/-- The continuations after which a rendered value is parsed back exactly:
end of input, or a separator/closer (never a numeric character, so a
numeric literal cannot swallow what follows). -/
def restOkV : List Char → Bool
  | [] => true
  | c :: _ => c = ',' || c = ']' || c = '}'

/-- Model of `json.loads` applied to a whole document: parse one value and
require only whitespace to remain. -/
def loads (s : List Char) : Option JVal :=
  match parseVal (s.length + 1) s with
  | some (v, rest) => if (skipWs rest).isEmpty then some v else none
  | none => none

/-- The batch splitter of `fetch` (source lines 208-216): join the request
body's lines, insert commas at `}{` adjacencies, wrap in an array and
parse.  Returns the parsed records, or `none` for the uncaught
`json.JSONDecodeError`. -/
def splitBatch (lines : List (List Char)) : Option (List JVal) :=
  match loads ('[' :: pyReplace lines.flatten ++ [']']) with
  | some (.arr xs) => some xs
  | some _ => none
  | none => none

/-! ## The record classifier and mapper (source lines 218-310) -/

/-- The metric names declared in `AppMetrics.__init__`. -/
inductive MetricName where
  | tenzir_memory_total_bytes | tenzir_memory_used_bytes | tenzir_memory_free_bytes
  | tenzir_loadavg_1m | tenzir_loadavg_5m | tenzir_loadavg_15m
  | tenzir_swap_space_usage | tenzir_open_fds
  | tenzir_current_memory_usage | tenzir_peak_memory_usage
  | tenzir_disk_total_bytes | tenzir_disk_used_bytes | tenzir_disk_free_bytes
  | tenzir_ingest_schema | tenzir_ingest_schema_id | tenzir_ingest_events
  | tenzir_operator_run | tenzir_operator_duration | tenzir_operator_starting_duration
  | tenzir_operator_processing_duration | tenzir_operator_scheduled_duration
  | tenzir_operator_running_duration | tenzir_operator_paused_duration
  | tenzir_operator_input_elements | tenzir_operator_output_elements
  | tenzir_operator_input_bytes | tenzir_operator_output_bytes
  | tenzir_operator_input_unit | tenzir_operator_output_unit
  | tenzir_operator_pipeline_id
  | tenzir_rebuild_partitions | tenzir_rebuild_queued_partitions
deriving DecidableEq

/-- The label names each metric is declared with (`Gauge(..., ["path"],
...)` etc. in `__init__`). -/
def labelNames : MetricName → List (List Char)
  | .tenzir_disk_total_bytes => [toCh "path"]
  | .tenzir_disk_used_bytes => [toCh "path"]
  | .tenzir_disk_free_bytes => [toCh "path"]
  | .tenzir_operator_run => [toCh "pipeline_id"]
  | .tenzir_operator_duration => [toCh "pipeline_id"]
  | .tenzir_operator_starting_duration => [toCh "pipeline_id"]
  | .tenzir_operator_processing_duration => [toCh "pipeline_id"]
  | .tenzir_operator_scheduled_duration => [toCh "pipeline_id"]
  | .tenzir_operator_running_duration => [toCh "pipeline_id"]
  | .tenzir_operator_paused_duration => [toCh "pipeline_id"]
  | .tenzir_operator_input_elements => [toCh "pipeline_id", toCh "unit"]
  | .tenzir_operator_output_elements => [toCh "pipeline_id", toCh "unit"]
  | .tenzir_operator_input_bytes => [toCh "pipeline_id", toCh "unit"]
  | .tenzir_operator_output_bytes => [toCh "pipeline_id", toCh "unit"]
  | .tenzir_operator_input_unit => [toCh "pipeline_id"]
  | .tenzir_operator_output_unit => [toCh "pipeline_id"]
  | _ => []

/-- The Python exceptions the record loop can raise (coarse-grained). -/
inductive PyErr where
  | keyError : List Char → PyErr
  | typeError : PyErr
  | valueError : PyErr
  | attributeError : PyErr
  | jsonDecodeError : PyErr
deriving DecidableEq

/-- One observable update of the metric registry, or the per-record
`push_to_gateway` call. -/
inductive Instr where
  | setGauge : MetricName → List (List Char) → JVal → Instr
  | setInfo : MetricName → List (List Char) → List (List Char × JVal) → Instr
  | push : Instr

/-- The result of running a block of statements: the updates applied so
far, plus the exception that aborted it, if any.  Updates before the
exception stay applied (the source has no undo and no try/except around
the loop body). -/
abbrev Emit := List Instr × Option PyErr

/-- Sequence two blocks: the second runs only if the first did not raise. -/
def thenE (a : Emit) (b : Emit) : Emit :=
  match a.2 with
  | none => (a.1 ++ b.1, b.2)
  | some e => (a.1, some e)

/-- Evaluate a fallible expression, then continue with its value. -/
def withE {α : Type} (x : Except PyErr α) (f : α → Emit) : Emit :=
  match x with
  | .ok v => f v
  | .error e => ([], some e)

/-- Dictionary lookup with Python semantics: the last binding of a
duplicated key wins (as in the dict built by `json.loads`). -/
def dictLookup : List (List Char × JVal) → List Char → Option JVal
  | [], _ => none
  | (k', v) :: rest, k =>
    match dictLookup rest k with
    | some r => some r
    | none => if k' = k then some v else none

/-- `key in item.keys()`. -/
def hasKey (item : JVal) (k : List Char) : Bool :=
  match item with
  | .obj fs => (dictLookup fs k).isSome
  | _ => false

/-- `item[k]`: `KeyError` when absent, `TypeError` when the subscripted
value is not a dict (Python raises for `str`/number subscripts with a
string key). -/
def getItem (item : JVal) (k : List Char) : Except PyErr JVal :=
  match item with
  | .obj fs =>
    match dictLookup fs k with
    | some v => .ok v
    | none => .error (.keyError k)
  | _ => .error .typeError

/-- Is a character Python `float()` whitespace? -/
def isPyWs (c : Char) : Bool := isWs c || c = '\x0b' || c = '\x0c'

/-- Signed-digit tail of a float exponent. -/
def sdigits (r : List Char) : Bool :=
  match r with
  | '+' :: r2 => hasDigit r2 && (dropDigits r2).isEmpty
  | '-' :: r2 => hasDigit r2 && (dropDigits r2).isEmpty
  | r2 => hasDigit r2 && (dropDigits r2).isEmpty

/-- Optional exponent of a float literal. -/
def floatExp : List Char → Bool
  | [] => true
  | 'e' :: r => sdigits r
  | 'E' :: r => sdigits r
  | _ => false

/-- Body of a Python float literal after sign stripping: `digits [.
digits] [exp]` or `. digits [exp]`. -/
def floatBody (t : List Char) : Bool :=
  match t with
  | '.' :: r => hasDigit r && floatExp (dropDigits r)
  | r =>
    hasDigit r &&
      (match dropDigits r with
       | '.' :: r2 => floatExp (dropDigits r2)
       | r2 => floatExp r2)

/-- Model of `float(s)` acceptance for strings: optional surrounding
whitespace, optional sign, then a decimal literal (the `inf`/`nan`
spellings and digit underscores are not modelled; no claim touches
them). -/
def pyFloatOk (s : List Char) : Bool :=
  let t := ((s.dropWhile isPyWs).reverse.dropWhile isPyWs).reverse
  match t with
  | '+' :: r => floatBody r
  | '-' :: r => floatBody r
  | r => floatBody r

/-- Model of Python `str()` on a JSON-derived value, used for label
values (`prometheus_client` stringifies label values).  Exact for
strings; numeric literal text is kept as-is (exact for ints, a harmless
approximation for floats, which no claim relies on). -/
def pyStr (v : JVal) : List Char :=
  match v with
  | .str s => s
  | .num d => d
  | .bool b => if b then toCh "True" else toCh "False"
  | .null => toCh "None"
  | _ => []

/-- `gauge.labels(lv...).set(v)` / `gauge.set(v)`, modelling
`prometheus_client`: calling `set` on a labelled parent metric (no
`labels(...)` call, `lv = []`) raises `ValueError`; `set` coerces its
argument with `float(...)`, raising `ValueError` for a non-numeric
string and `TypeError` for `None`/dict/list. -/
def gaugeSet (m : MetricName) (lv : List (List Char)) (v : JVal) : Emit :=
  if labelNames m ≠ [] ∧ lv = [] then ([], some .valueError)
  else
    match v with
    | .num _ => ([.setGauge m lv v], none)
    | .bool _ => ([.setGauge m lv v], none)
    | .str s => if pyFloatOk s then ([.setGauge m lv v], none) else ([], some .valueError)
    | _ => ([], some .typeError)

/-- `info.labels(lv...).info({...})` / `info.info({...})`: always succeeds
here (the label-collision check of `prometheus_client` cannot fire for
the field names this source uses). -/
def infoSet (m : MetricName) (lv : List (List Char)) (fields : List (List Char × JVal)) : Emit :=
  ([.setInfo m lv fields], none)

/-- `re.sub(r"[a-z]", "", item[k])` requires a string argument. -/
def reSubLower (v : JVal) : Except PyErr (List Char) :=
  match v with
  | .str s => .ok (stripLower s)
  | _ => .error .typeError

/-- Rebuild branch (lines 222-224).  Note the source reads
`item["partitions"]` under a guard that only checked
`"queued_partitions"`. -/
def rebuildBranch (item : JVal) : Emit :=
  withE (getItem item (toCh "partitions")) fun v1 =>
  thenE (gaugeSet .tenzir_rebuild_partitions [] v1) <|
  withE (getItem item (toCh "queued_partitions")) fun v2 =>
  gaugeSet .tenzir_rebuild_queued_partitions [] v2

/-- CPU branch (lines 227-230). -/
def cpuBranch (item : JVal) : Emit :=
  withE (getItem item (toCh "loadavg_1m")) fun v1 =>
  thenE (gaugeSet .tenzir_loadavg_1m [] v1) <|
  withE (getItem item (toCh "loadavg_5m")) fun v2 =>
  thenE (gaugeSet .tenzir_loadavg_5m [] v2) <|
  withE (getItem item (toCh "loadavg_15m")) fun v3 =>
  gaugeSet .tenzir_loadavg_15m [] v3

/-- Memory branch (lines 233-236). -/
def memoryBranch (item : JVal) : Emit :=
  withE (getItem item (toCh "total_bytes")) fun v1 =>
  thenE (gaugeSet .tenzir_memory_total_bytes [] v1) <|
  withE (getItem item (toCh "used_bytes")) fun v2 =>
  thenE (gaugeSet .tenzir_memory_used_bytes [] v2) <|
  withE (getItem item (toCh "free_bytes")) fun v3 =>
  gaugeSet .tenzir_memory_free_bytes [] v3

/-- Process branch (lines 239-243). -/
def processBranch (item : JVal) : Emit :=
  withE (getItem item (toCh "swap_space_usage")) fun v1 =>
  thenE (gaugeSet .tenzir_swap_space_usage [] v1) <|
  withE (getItem item (toCh "open_fds")) fun v2 =>
  thenE (gaugeSet .tenzir_open_fds [] v2) <|
  withE (getItem item (toCh "current_memory_usage")) fun v3 =>
  thenE (gaugeSet .tenzir_current_memory_usage [] v3) <|
  withE (getItem item (toCh "peak_memory_usage")) fun v4 =>
  gaugeSet .tenzir_peak_memory_usage [] v4

/-- Disk branch (lines 246-249).  The source calls `set` directly on the
three path-labelled gauges without `.labels(...)`, so `gaugeSet` receives
an empty label-value list. -/
def diskBranch (item : JVal) : Emit :=
  withE (getItem item (toCh "total_bytes")) fun v1 =>
  thenE (gaugeSet .tenzir_disk_total_bytes [] v1) <|
  withE (getItem item (toCh "used_bytes")) fun v2 =>
  thenE (gaugeSet .tenzir_disk_used_bytes [] v2) <|
  withE (getItem item (toCh "free_bytes")) fun v3 =>
  gaugeSet .tenzir_disk_free_bytes [] v3

/-- Ingest branch (lines 252-255).  `Info` objects have no `set` method,
so the attribute lookup `self.tenzir_ingest_schema.set` raises
`AttributeError` before the argument is even evaluated. -/
def ingestBranch (_item : JVal) : Emit :=
  ([], some .attributeError)

/-- Operator branch (lines 258-305), in source statement order.  Note the
source's own pairings: the `run` gauge is set from the normalised
`duration`, and the `duration` gauge from `starting_duration`;
the output-unit info is emitted under the field name
`"tenzir_operator_input_unit"` with the output unit's value. -/
def operatorBranch (item : JVal) : Emit :=
  withE (getItem item (toCh "duration")) fun dv =>
  withE (reSubLower dv) fun duration =>
  withE (getItem item (toCh "starting_duration")) fun sv =>
  withE (reSubLower sv) fun starting_duration =>
  withE (getItem item (toCh "processing_duration")) fun pv =>
  withE (reSubLower pv) fun processing_duration =>
  withE (getItem item (toCh "scheduled_duration")) fun scv =>
  withE (reSubLower scv) fun scheduled_duration =>
  withE (getItem item (toCh "running_duration")) fun rv =>
  withE (reSubLower rv) fun running_duration =>
  withE (getItem item (toCh "paused_duration")) fun pav =>
  withE (reSubLower pav) fun paused_duration =>
  withE (getItem item (toCh "pipeline_id")) fun pidv =>
  thenE (gaugeSet .tenzir_operator_run [pyStr pidv] (.str duration)) <|
  thenE (gaugeSet .tenzir_operator_duration [pyStr pidv] (.str starting_duration)) <|
  thenE (gaugeSet .tenzir_operator_starting_duration [pyStr pidv] (.str starting_duration)) <|
  thenE (gaugeSet .tenzir_operator_processing_duration [pyStr pidv] (.str processing_duration)) <|
  thenE (gaugeSet .tenzir_operator_scheduled_duration [pyStr pidv] (.str scheduled_duration)) <|
  thenE (gaugeSet .tenzir_operator_running_duration [pyStr pidv] (.str running_duration)) <|
  thenE (gaugeSet .tenzir_operator_paused_duration [pyStr pidv] (.str paused_duration)) <|
  withE (getItem item (toCh "input")) fun inp =>
  withE (getItem inp (toCh "unit")) fun inUnit =>
  withE (getItem inp (toCh "elements")) fun inElems =>
  thenE (gaugeSet .tenzir_operator_input_elements [pyStr pidv, pyStr inUnit] inElems) <|
  withE (getItem item (toCh "output")) fun outp =>
  withE (getItem outp (toCh "unit")) fun outUnit =>
  withE (getItem outp (toCh "elements")) fun outElems =>
  thenE (gaugeSet .tenzir_operator_output_elements [pyStr pidv, pyStr outUnit] outElems) <|
  withE (getItem inp (toCh "approx_bytes")) fun inBytes =>
  thenE (gaugeSet .tenzir_operator_input_bytes [pyStr pidv, pyStr inUnit] inBytes) <|
  withE (getItem outp (toCh "approx_bytes")) fun outBytes =>
  thenE (gaugeSet .tenzir_operator_output_bytes [pyStr pidv, pyStr outUnit] outBytes) <|
  thenE (infoSet .tenzir_operator_input_unit [pyStr pidv]
    [(toCh "tenzir_operator_input_unit", inUnit)]) <|
  thenE (infoSet .tenzir_operator_output_unit [pyStr pidv]
    [(toCh "tenzir_operator_input_unit", outUnit)]) <|
  infoSet .tenzir_operator_pipeline_id [] [(toCh "pipeline_id", pidv)]

/-- The body of the `for item in parsed_data` loop up to the push: the
seven independent `if` branches, in source order.  `item.keys()` on a
non-dict raises `AttributeError` at the first guard. -/
def mapItem (item : JVal) : Emit :=
  if ¬ isObjV item then ([], some .attributeError)
  else
    thenE (if hasKey item (toCh "queued_partitions") then rebuildBranch item else ([], none)) <|
    thenE (if hasKey item (toCh "loadavg_1m") then cpuBranch item else ([], none)) <|
    thenE (if hasKey item (toCh "total_bytes") ∧ ¬ hasKey item (toCh "path")
      then memoryBranch item else ([], none)) <|
    thenE (if hasKey item (toCh "swap_space_usage") then processBranch item else ([], none)) <|
    thenE (if hasKey item (toCh "path") then diskBranch item else ([], none)) <|
    thenE (if hasKey item (toCh "schema_id") ∧ ¬ hasKey item (toCh "run")
      then ingestBranch item else ([], none)) <|
    (if hasKey item (toCh "pipeline_id") ∧ hasKey item (toCh "transformation")
      then operatorBranch item else ([], none))

/-- One loop iteration: the branches, then the per-record
`push_to_gateway` (line 307). -/
def processItem (item : JVal) : Emit :=
  thenE (mapItem item) ([.push], none)

/-- The whole record loop.  An exception in one iteration propagates out
of `fetch`, so later records are not reached. -/
def processItems : List JVal → Emit
  | [] => ([], none)
  | item :: rest =>
    match processItem item with
    | (tr, none) =>
      let r := processItems rest
      (tr ++ r.1, r.2)
    | (tr, some e) => (tr, some e)

/-- What the HTTP caller observes from `fetch`. -/
inductive FetchResult where
  | errorJson : Nat → FetchResult
  | emptyDict : FetchResult
  | raised : PyErr → FetchResult
deriving DecidableEq

/-- `AppMetrics.fetch` end to end: `none` input models a body whose
UTF-8 decoding failed (the only case the bare `except` catches,
returning `{"error": 1}`); otherwise the decoded, split lines are
repaired and parsed — a parse failure escapes as `JSONDecodeError` —
and each record is processed in order. -/
def fetch (body : Option (List (List Char))) : List Instr × FetchResult :=
  match body with
  | none => ([], .errorJson 1)
  | some lines =>
    match splitBatch lines with
    | none => ([], .raised .jsonDecodeError)
    | some items =>
      match processItems items with
      | (tr, none) => (tr, .emptyDict)
      | (tr, some e) => (tr, .raised e)

/-! ## Concrete records and payloads used by the counterexamples and
witnesses -/

/-- A record carrying both the cpu-load discriminator (`loadavg_1m`) and
the process discriminator (`swap_space_usage`), with the fields both
branches read. -/
def recCpuProcess : JVal := .obj
  [(toCh "loadavg_1m", .num (toCh "1")), (toCh "loadavg_5m", .num (toCh "2")),
   (toCh "loadavg_15m", .num (toCh "3")), (toCh "swap_space_usage", .num (toCh "4")),
   (toCh "open_fds", .num (toCh "5")), (toCh "current_memory_usage", .num (toCh "6")),
   (toCh "peak_memory_usage", .num (toCh "7"))]

/-- Scenario B's disk record: `path` together with the byte counters. -/
def recDisk : JVal := .obj
  [(toCh "path", .str (toCh "/data")), (toCh "total_bytes", .num (toCh "500")),
   (toCh "used_bytes", .num (toCh "200")), (toCh "free_bytes", .num (toCh "300"))]

/-- A complete operator record with six distinct duration values. -/
def recOperator : JVal := .obj
  [(toCh "pipeline_id", .str (toCh "p1")), (toCh "transformation", .str (toCh "t")),
   (toCh "duration", .str (toCh "1ms")), (toCh "starting_duration", .str (toCh "2ms")),
   (toCh "processing_duration", .str (toCh "3ms")), (toCh "scheduled_duration", .str (toCh "4ms")),
   (toCh "running_duration", .str (toCh "5ms")), (toCh "paused_duration", .str (toCh "6ms")),
   (toCh "input", .obj [(toCh "unit", .str (toCh "events")), (toCh "elements", .num (toCh "10")),
     (toCh "approx_bytes", .num (toCh "100"))]),
   (toCh "output", .obj [(toCh "unit", .str (toCh "bytes")), (toCh "elements", .num (toCh "20")),
     (toCh "approx_bytes", .num (toCh "200"))])]

/-- An operator record that matches the operator shape but lacks the
required `input` sub-object. -/
def recOperatorNoInput : JVal := .obj
  [(toCh "pipeline_id", .str (toCh "p1")), (toCh "transformation", .str (toCh "t")),
   (toCh "duration", .str (toCh "1ms")), (toCh "starting_duration", .str (toCh "2ms")),
   (toCh "processing_duration", .str (toCh "3ms")), (toCh "scheduled_duration", .str (toCh "4ms")),
   (toCh "running_duration", .str (toCh "5ms")), (toCh "paused_duration", .str (toCh "6ms"))]

/-- A plain cpu-load record. -/
def recCpu : JVal := .obj
  [(toCh "loadavg_1m", .num (toCh "1")), (toCh "loadavg_5m", .num (toCh "2")),
   (toCh "loadavg_15m", .num (toCh "3"))]

/-- The parsed object `\x7b"a":1\x7d`. -/
def objA : JVal := .obj [(toCh "a", .num (toCh "1"))]

/-- The parsed object `\x7b"b":2\x7d`. -/
def objB : JVal := .obj [(toCh "b", .num (toCh "2"))]

/-- The text `\x7b"a":1\x7d ` — one JSON object literal followed by a
trailing space, a line `json.loads` accepts on its own. -/
def lineObjASpace : List Char := toCh "\x7b\"a\":1\x7d "

/-- The text `\x7b"b":2\x7d`. -/
def lineObjB : List Char := toCh "\x7b\"b\":2\x7d"

/-! ## Lemmas about duration normalisation -/

/-- `stripLower` is the filter keeping exactly the non-`[a-z]`
characters. -/
theorem stripLower_eq_filter (s : List Char) :
    stripLower s = s.filter (fun c => ! isLowerAZ c) := by
  induction s with
  | nil => rfl
  | cons c r ih =>
    by_cases h : 'a' ≤ c ∧ c ≤ 'z'
    · simp [stripLower, h, ih, List.filter_cons, isLowerAZ, h.1, h.2]
    · simp only [stripLower, if_neg h, ih, List.filter_cons]
      have : isLowerAZ c = false := by
        simp only [isLowerAZ, Bool.and_eq_false_iff]
        rcases not_and_or.mp h with h1 | h1
        · exact Or.inl (by simpa using h1)
        · exact Or.inr (by simpa using h1)
      simp [this]

/-- No character of `stripLower s` is a lowercase letter. -/
theorem stripLower_no_lower (s : List Char) :
    ∀ c ∈ stripLower s, isLowerAZ c = false := by
  intro c hc
  rw [stripLower_eq_filter] at hc
  simpa using (List.of_mem_filter hc)

/-! ## Lemmas about the `\x7b`-`\x7d` repair -/

/-- Two-step list induction matching `pyReplace`'s recursion. -/
theorem twoStep {α : Type} {P : List α → Prop} (h0 : P [])
    (h1 : ∀ c, P [c]) (h2 : ∀ c d t, P t → P (d :: t) → P (c :: d :: t)) :
    ∀ s, P s
  | [] => h0
  | [c] => h1 c
  | c :: d :: t => h2 c d t (twoStep h0 h1 h2 t) (twoStep h0 h1 h2 (d :: t))

/-- A non-`\x7d` head steps plainly through `pyReplace`. -/
theorem pyReplace_cons_ne {c : Char} (h : c ≠ '}') (l : List Char) :
    pyReplace (c :: l) = c :: pyReplace l := by
  cases l with
  | nil => rfl
  | cons d t =>
    have hn : ¬(c = '}' ∧ d = '{') := fun h2 => h h2.1
    simp [pyReplace, hn]

/-- `pyReplace` after a `\x7d` head is `pyRepCont`. -/
theorem pyReplace_brace (rest : List Char) :
    pyReplace ('}' :: rest) = '}' :: pyRepCont '}' rest := by
  cases rest with
  | nil => rfl
  | cons d t =>
    by_cases hd : d = '{'
    · subst hd
      simp [pyReplace, pyRepCont, pyReplace_cons_ne (by decide : '{' ≠ '}')]
    · simp [pyReplace, pyRepCont, fun h2 : '}' = '}' ∧ d = '{' => hd h2.2, hd]

/-- When the continuation does not start with `\x7b`, `pyRepCont` is just
`pyReplace`. -/
theorem pyRepCont_eq (p : Char) {rest : List Char} (h : rest.head? ≠ some '{') :
    pyRepCont p rest = pyReplace rest := by
  have hn : ¬(p = '}' ∧ rest.head? = some '{') := fun h2 => h h2.2
  simp [pyRepCont, hn]

/-- A prefix free of `\x7d` passes through `pyReplace` unchanged. -/
theorem pyReplace_append_of_no_brace {a : List Char} (h : ∀ c ∈ a, c ≠ '}')
    (rest : List Char) : pyReplace (a ++ rest) = a ++ pyReplace rest := by
  induction a with
  | nil => rfl
  | cons c t ih =>
    have hc : c ≠ '}' := h c (List.mem_cons_self c t)
    have ht : ∀ x ∈ t, x ≠ '}' := fun x hx => h x (List.mem_cons_of_mem c hx)
    simp [pyReplace_cons_ne hc, ih ht]

/-- The escape expansion of a non-`\x7d` character contains no `\x7d`. -/
theorem escPre_no_brace {c : Char} (h : c ≠ '}') : ∀ x ∈ escPre c, x ≠ '}' := by
  intro x hx
  unfold escPre at hx
  split_ifs at hx with h1 h2 h3 h4 h5 <;> simp_all <;>
    rcases hx with hx | hx <;> simp [hx]

/-- The escape expansion of `\x7d` is itself. -/
theorem escPre_brace : escPre '}' = ['}'] := by decide

/-- The escape expansion of a non-`\x7b` character does not start with
`\x7b`. -/
theorem escPre_head_ne {c : Char} (h : c ≠ '{') (X : List Char) :
    (escPre c ++ X).head? ≠ some '{' := by
  unfold escPre
  split_ifs <;> simp_all

/-- `escPre` never produces `\x7b` as its head even for `\x7b` itself is
irrelevant; what matters is membership of `\x7b`: the expansion of a
non-`\x7b` character contains no `\x7b`. -/
theorem escPre_no_open {c : Char} (h : c ≠ '{') : ∀ x ∈ escPre c, x ≠ '{' := by
  intro x hx
  unfold escPre at hx
  split_ifs at hx with h1 h2 h3 h4 h5 <;> simp_all <;>
    rcases hx with hx | hx <;> simp [hx]

/-- The repair on a `\x7d\x7b` pair. -/
theorem pyReplace_pair (r : List Char) :
    pyReplace ('}' :: '{' :: r) = '}' :: ',' :: '{' :: pyReplace r := by
  simp [pyReplace]

/-- The `\x7b`-`\x7d` repair commutes with string escaping: inside an
escaped string body, the only `\x7d\x7b` occurrences are the literal
adjacencies of the body itself, so repairing the escaped text is the
same as escaping the repaired body. -/
theorem pyReplace_escape (s : List Char) : ∀ rest : List Char, rest.head? ≠ some '{' →
    pyReplace (escape s ++ rest) = escape (pyReplace s) ++ pyReplace rest := by
  induction s using twoStep with
  | h0 => intro rest _; rfl
  | h1 c =>
    intro rest h
    by_cases hc : c = '}'
    · subst hc
      show pyReplace ((escPre '}' ++ []) ++ rest) = (escPre '}' ++ []) ++ pyReplace rest
      rw [escPre_brace]
      simp only [List.append_nil, List.cons_append, List.nil_append]
      rw [pyReplace_brace, pyRepCont_eq _ h]
    · show pyReplace ((escPre c ++ []) ++ rest) = (escPre c ++ []) ++ pyReplace rest
      simp only [List.append_nil]
      exact pyReplace_append_of_no_brace (escPre_no_brace hc) rest
  | h2 c d t iht ihdt =>
    intro rest h
    by_cases hcd : c = '}' ∧ d = '{'
    · obtain ⟨hc, hd⟩ := hcd
      subst hc; subst hd
      show pyReplace ((escPre '}' ++ (escPre '{' ++ escape t)) ++ rest) = _
      rw [escPre_brace, (by decide : escPre '{' = ['{'])]
      rw [pyReplace_pair t]
      show pyReplace ('}' :: '{' :: (escape t ++ rest)) =
        escape ('}' :: ',' :: '{' :: pyReplace t) ++ pyReplace rest
      rw [pyReplace_pair, iht rest h]
      show _ = (escPre '}' ++ (escPre ',' ++ (escPre '{' ++ escape (pyReplace t)))) ++ pyReplace rest
      rw [escPre_brace, (by decide : escPre '{' = ['{']), (by decide : escPre ',' = [','])]
      simp
    · have heq : pyReplace (c :: d :: t) = c :: pyReplace (d :: t) := by
        simp [pyReplace, hcd]
      rw [heq]
      show pyReplace ((escPre c ++ escape (d :: t)) ++ rest) =
        (escPre c ++ escape (pyReplace (d :: t))) ++ pyReplace rest
      by_cases hc : c = '}'
      · subst hc
        have hd : d ≠ '{' := fun hd => hcd ⟨rfl, hd⟩
        rw [escPre_brace]
        simp only [List.cons_append, List.nil_append]
        rw [pyReplace_brace]
        have hx : (escape (d :: t) ++ rest).head? ≠ some '{' := by
          show ((escPre d ++ escape t) ++ rest).head? ≠ some '{'
          rw [List.append_assoc]
          exact escPre_head_ne hd _
        rw [pyRepCont_eq _ hx, ihdt rest h]
      · rw [List.append_assoc, pyReplace_append_of_no_brace (escPre_no_brace hc),
          ihdt rest h]
        simp

/-- A character satisfying `numChar` differs from any character that does
not. -/
theorem char_ne_of {c x : Char} {p : Char → Bool} (h : p c = true)
    (hx : p x = false) : c ≠ x := by
  intro he
  rw [he, hx] at h
  exact Bool.noConfusion h

/-- All characters of a well-formed numeric literal are numeric. -/
theorem wf_num_all {d : List Char} (hwf : wf (.num d) = true) :
    ∀ c ∈ d, numChar c = true := by
  have h2 : validNum d = true ∧ ∀ c ∈ d, numChar c = true := by
    simpa [wf, List.all_eq_true] using hwf
  exact h2.2

mutual

/-- Repairing the rendering of a well-formed value followed by material
that does not start with `\x7b` repairs exactly the string bodies. -/
theorem pyReplace_render (v : JVal) (rest : List Char) (hwf : wf v = true)
    (h : rest.head? ≠ some '{') :
    pyReplace (render v ++ rest) = render (commaFix v) ++ pyReplace rest := by
  cases v with
  | null => exact pyReplace_append_of_no_brace (by decide) rest
  | bool b =>
    cases b
    · exact pyReplace_append_of_no_brace (by decide) rest
    · exact pyReplace_append_of_no_brace (by decide) rest
  | num d =>
    exact pyReplace_append_of_no_brace
      (fun c hc => char_ne_of (wf_num_all hwf c hc) (by decide)) rest
  | str s =>
    show pyReplace (('"' :: escape s ++ ['"']) ++ rest) =
      ('"' :: escape (pyReplace s) ++ ['"']) ++ pyReplace rest
    simp only [List.cons_append, List.append_assoc, List.singleton_append,
      List.nil_append]
    rw [pyReplace_cons_ne (by decide), pyReplace_escape s ('"' :: rest) (by simp),
      pyReplace_cons_ne (by decide)]
  | arr xs =>
    have hxs : wfList xs = true := by simpa [wf] using hwf
    show pyReplace (('[' :: renderElems xs ++ [']']) ++ rest) =
      ('[' :: renderElems (commaFixList xs) ++ [']']) ++ pyReplace rest
    simp only [List.cons_append, List.append_assoc, List.singleton_append,
      List.nil_append]
    rw [pyReplace_cons_ne (by decide),
      pyReplace_renderElems xs (']' :: rest) hxs (by simp),
      pyReplace_cons_ne (by decide)]
  | obj fs =>
    have hfs : wfFields fs = true := by simpa [wf] using hwf
    show pyReplace (('{' :: renderFields fs ++ ['}']) ++ rest) =
      ('{' :: renderFields (commaFixFields fs) ++ ['}']) ++ pyReplace rest
    simp only [List.cons_append, List.append_assoc, List.singleton_append,
      List.nil_append]
    rw [pyReplace_cons_ne (by decide),
      pyReplace_renderFields fs ('}' :: rest) hfs (by simp),
      pyReplace_brace, pyRepCont_eq _ h]

/-- `pyReplace_render` for comma-separated element lists. -/
theorem pyReplace_renderElems (xs : List JVal) (rest : List Char)
    (hwf : wfList xs = true) (h : rest.head? ≠ some '{') :
    pyReplace (renderElems xs ++ rest) = renderElems (commaFixList xs) ++ pyReplace rest := by
  match xs with
  | [] => rfl
  | [v] =>
    have hv : wf v = true := by simpa [wfList] using hwf
    exact pyReplace_render v rest hv h
  | v :: w :: ws =>
    have h2 : wf v = true ∧ wf w = true ∧ wfList ws = true := by
      simpa [wfList] using hwf
    have hws : wfList (w :: ws) = true := by simp [wfList, h2.2.1, h2.2.2]
    show pyReplace ((render v ++ ',' :: renderElems (w :: ws)) ++ rest) =
      (render (commaFix v) ++ ',' :: renderElems (commaFixList (w :: ws))) ++ pyReplace rest
    simp only [List.append_assoc, List.cons_append, List.nil_append]
    rw [pyReplace_render v (',' :: (renderElems (w :: ws) ++ rest)) h2.1 (by simp),
      pyReplace_cons_ne (by decide),
      pyReplace_renderElems (w :: ws) rest hws h]

/-- `pyReplace_render` for comma-separated field lists. -/
theorem pyReplace_renderFields (fs : List (List Char × JVal)) (rest : List Char)
    (hwf : wfFields fs = true) (h : rest.head? ≠ some '{') :
    pyReplace (renderFields fs ++ rest) =
      renderFields (commaFixFields fs) ++ pyReplace rest := by
  match fs with
  | [] => rfl
  | [(k, v)] =>
    have h2 : (∀ x ∈ k, okChar x = true) ∧ wf v = true := by
      simpa [wfFields, List.all_eq_true] using hwf
    show pyReplace ((('"' :: escape k ++ ['"']) ++ ':' :: render v) ++ rest) =
      (('"' :: escape (pyReplace k) ++ ['"']) ++ ':' :: render (commaFix v)) ++ pyReplace rest
    simp only [List.cons_append, List.append_assoc, List.singleton_append,
      List.nil_append]
    rw [pyReplace_cons_ne (by decide),
      pyReplace_escape k ('"' :: ':' :: (render v ++ rest)) (by simp),
      pyReplace_cons_ne (by decide), pyReplace_cons_ne (by decide),
      pyReplace_render v rest h2.2 h]
  | (k, v) :: f2 :: fsr =>
    have h2 : ((∀ x ∈ k, okChar x = true) ∧ wf v = true) ∧
        ((∀ x ∈ f2.1, okChar x = true) ∧ wf f2.2 = true) ∧ wfFields fsr = true := by
      simpa [wfFields, List.all_eq_true] using hwf
    have hfs : wfFields (f2 :: fsr) = true := by
      obtain ⟨k2, v2⟩ := f2
      have ha : ∀ x ∈ k2, okChar x = true := h2.2.1.1
      have hb : wf v2 = true := h2.2.1.2
      simp only [wfFields, Bool.and_eq_true, List.all_eq_true]
      exact ⟨⟨ha, hb⟩, h2.2.2⟩
    show pyReplace ((('"' :: escape k ++ ['"']) ++ ':' :: render v ++
        ',' :: renderFields (f2 :: fsr)) ++ rest) =
      (('"' :: escape (pyReplace k) ++ ['"']) ++ ':' :: render (commaFix v) ++
        ',' :: renderFields (commaFixFields (f2 :: fsr))) ++ pyReplace rest
    simp only [List.cons_append, List.append_assoc, List.singleton_append,
      List.nil_append]
    rw [pyReplace_cons_ne (by decide),
      pyReplace_escape k ('"' :: ':' :: (render v ++
        ',' :: (renderFields (f2 :: fsr) ++ rest))) (by simp),
      pyReplace_cons_ne (by decide), pyReplace_cons_ne (by decide),
      pyReplace_render v (',' :: (renderFields (f2 :: fsr) ++ rest)) h2.1.2 (by simp),
      pyReplace_cons_ne (by decide),
      pyReplace_renderFields (f2 :: fsr) rest hfs h]

end

/-- A value passing `isObjV` is an object. -/
theorem isObjV_elim {o : JVal} (h : isObjV o = true) :
    ∃ fs, o = JVal.obj fs := by
  cases o with
  | obj fs => exact ⟨fs, rfl⟩
  | null => exact absurd h (by simp [isObjV])
  | bool b => exact absurd h (by simp [isObjV])
  | num d => exact absurd h (by simp [isObjV])
  | str s => exact absurd h (by simp [isObjV])
  | arr xs => exact absurd h (by simp [isObjV])

/-- Repairing the concatenation of rendered well-formed objects inserts
exactly the separating commas (and repairs the string bodies), giving the
rendering of the comma-separated element list. -/
theorem pyReplace_joined (objs : List JVal)
    (hobj : ∀ o ∈ objs, isObjV o = true) (hwf : ∀ o ∈ objs, wf o = true) :
    pyReplace (objs.map render).flatten = renderElems (commaFixList objs) := by
  induction objs with
  | nil => rfl
  | cons o rest ih =>
    have ho : wf o = true := hwf o (List.mem_cons_self o rest)
    obtain ⟨fs, rfl⟩ := isObjV_elim (hobj _ (List.mem_cons_self _ rest))
    have hfs : wfFields fs = true := by simpa [wf] using ho
    cases rest with
    | nil =>
      have h1 := pyReplace_render (.obj fs) [] ho (by simp)
      simp only [List.map_cons, List.map_nil, List.flatten_cons, List.flatten_nil,
        List.append_nil] at h1 ⊢
      simpa [commaFixList, renderElems, pyReplace] using h1
    | cons r2 rr =>
      obtain ⟨fs2, hr2⟩ := isObjV_elim (hobj r2 (by simp))
      have ihyp := ih (fun x hx => hobj x (List.mem_cons_of_mem _ hx))
        (fun x hx => hwf x (List.mem_cons_of_mem _ hx))
      have htail : ((r2 :: rr).map render).flatten =
          '{' :: (renderFields fs2 ++ '}' :: (rr.map render).flatten) := by
        rw [List.map_cons, List.flatten_cons, hr2]
        show ('{' :: renderFields fs2 ++ ['}']) ++ _ = _
        simp
      show pyReplace (('{' :: renderFields fs ++ ['}']) ++ ((r2 :: rr).map render).flatten)
        = renderElems (commaFixList (JVal.obj fs :: r2 :: rr))
      rw [htail]
      simp only [List.cons_append, List.append_assoc, List.singleton_append,
        List.nil_append]
      rw [pyReplace_cons_ne (by decide),
        pyReplace_renderFields fs ('}' :: '{' ::
          (renderFields fs2 ++ '}' :: (rr.map render).flatten)) hfs (by simp)]
      have hp : pyReplace ('}' :: '{' ::
          (renderFields fs2 ++ '}' :: (rr.map render).flatten)) =
          '}' :: ',' :: pyReplace ('{' ::
            (renderFields fs2 ++ '}' :: (rr.map render).flatten)) := by
        rw [pyReplace_pair, pyReplace_cons_ne (by decide)]
      rw [hp]
      rw [htail] at ihyp
      rw [ihyp]
      rw [show commaFixList (JVal.obj fs :: r2 :: rr) =
        commaFix (JVal.obj fs) :: commaFix r2 :: commaFixList rr from rfl]
      show _ = render (commaFix (JVal.obj fs)) ++
        ',' :: renderElems (commaFix r2 :: commaFixList rr)
      rw [show commaFixList (r2 :: rr) = commaFix r2 :: commaFixList rr from rfl]
      show _ = ('{' :: renderFields (commaFixFields fs) ++ ['}']) ++
        ',' :: renderElems (commaFix r2 :: commaFixList rr)
      simp

/-! ## Parser round-trip lemmas -/

/-- A numeric character is not JSON whitespace. -/
theorem numChar_not_ws {c : Char} (h : numChar c = true) : isWs c = false := by
  by_contra hw
  have hw2 : isWs c = true := by simpa using hw
  have hc : c = ' ' ∨ c = '\t' ∨ c = '\n' ∨ c = '\r' := by
    simpa [isWs, or_assoc] using hw2
  rcases hc with rfl | rfl | rfl | rfl <;> exact absurd h (by decide)

/-- `skipWs` keeps a list whose head is not whitespace. -/
theorem skipWs_not_ws {c : Char} (h : isWs c = false) (r : List Char) :
    skipWs (c :: r) = c :: r := by
  simp [skipWs, h]

/-- `takeWhile` over an all-true prefix. -/
theorem takeWhile_append_all {p : Char → Bool} {l : List Char}
    (h : ∀ c ∈ l, p c = true) (r : List Char) :
    (l ++ r).takeWhile p = l ++ r.takeWhile p := by
  induction l with
  | nil => rfl
  | cons c t ih =>
    have hc : p c = true := h c (List.mem_cons_self c t)
    simp [List.takeWhile_cons, hc, ih (fun x hx => h x (List.mem_cons_of_mem c hx))]

/-- `dropWhile` over an all-true prefix. -/
theorem dropWhile_append_all {p : Char → Bool} {l : List Char}
    (h : ∀ c ∈ l, p c = true) (r : List Char) :
    (l ++ r).dropWhile p = r.dropWhile p := by
  induction l with
  | nil => rfl
  | cons c t ih =>
    have hc : p c = true := h c (List.mem_cons_self c t)
    simp [List.dropWhile_cons, hc, ih (fun x hx => h x (List.mem_cons_of_mem c hx))]

/-- `takeWhile` stops immediately on a failing head. -/
theorem takeWhile_head_false {p : Char → Bool} {r : List Char}
    (h : ∀ c, r.head? = some c → p c = false) : r.takeWhile p = [] := by
  cases r with
  | nil => rfl
  | cons c t => simp [List.takeWhile_cons, h c rfl]

/-- `dropWhile` keeps a list with a failing head. -/
theorem dropWhile_head_false {p : Char → Bool} {r : List Char}
    (h : ∀ c, r.head? = some c → p c = false) : r.dropWhile p = r := by
  cases r with
  | nil => rfl
  | cons c t => simp [List.dropWhile_cons, h c rfl]

/-- A continuation accepted by `restOkV` never starts with a numeric
character. -/
theorem restOkV_head_not_num {rest : List Char} (h : restOkV rest = true) :
    ∀ c, rest.head? = some c → numChar c = false := by
  intro c hc
  cases rest with
  | nil => exact Option.noConfusion hc
  | cons d t =>
    have hd : d = ',' ∨ d = ']' ∨ d = '}' := by simpa [restOkV, or_assoc] using h
    have : d = c := by simpa using hc
    subst this
    rcases hd with rfl | rfl | rfl <;> decide

/-- `parseStr` on a closing quote. -/
theorem parseStr_quote (r : List Char) : parseStr ('"' :: r) = some ([], r) := by
  rw [parseStr.eq_def]
  simp

/-- `parseStr` on an escape sequence. -/
theorem parseStr_esc (e : Char) {r2 : List Char} {cs r3 : List Char}
    (h : parseStr r2 = some (cs, r3)) :
    parseStr ('\\' :: e :: r2) = some (unesc e :: cs, r3) := by
  rw [parseStr.eq_def]
  simp [h]

/-- `parseStr` on an ordinary character. -/
theorem parseStr_other {c : Char} (h1 : c ≠ '"') (h2 : c ≠ '\\')
    {r : List Char} {cs r3 : List Char} (h : parseStr r = some (cs, r3)) :
    parseStr (c :: r) = some (c :: cs, r3) := by
  rw [parseStr.eq_def]
  simp [h1, h2, h]

/-- Parsing the escaped rendering of a string body recovers the body. -/
theorem parseStr_escape (s : List Char) : ∀ rest : List Char,
    parseStr (escape s ++ '"' :: rest) = some (s, rest) := by
  induction s with
  | nil => intro rest; simpa [escape] using parseStr_quote rest
  | cons c t ih =>
    intro rest
    show parseStr ((escPre c ++ escape t) ++ '"' :: rest) = some (c :: t, rest)
    by_cases h1 : c = '"'
    · subst h1
      rw [show escPre '"' = ['\\', '"'] from by decide]
      simpa using parseStr_esc '"' (ih rest)
    · by_cases h2 : c = '\\'
      · subst h2
        rw [show escPre '\\' = ['\\', '\\'] from by decide]
        simpa using parseStr_esc '\\' (ih rest)
      · by_cases h3 : c = '\n'
        · subst h3
          rw [show escPre '\n' = ['\\', 'n'] from by decide]
          simpa using parseStr_esc 'n' (ih rest)
        · by_cases h4 : c = '\t'
          · subst h4
            rw [show escPre '\t' = ['\\', 't'] from by decide]
            simpa using parseStr_esc 't' (ih rest)
          · by_cases h5 : c = '\r'
            · subst h5
              rw [show escPre '\r' = ['\\', 'r'] from by decide]
              simpa using parseStr_esc 'r' (ih rest)
            · have he : escPre c = [c] := by
                simp [escPre, h1, h2, h3, h4, h5]
              rw [he]
              simpa using parseStr_other h1 h2 (ih rest)

/-- A valid numeric literal is nonempty. -/
theorem validNum_ne_nil {d : List Char} (h : validNum d = true) : d ≠ [] := by
  intro he
  subst he
  exact absurd h (by decide)

/-- The first character of a rendered well-formed value is never
whitespace, a closer, or a separator. -/
theorem render_head (v : JVal) (hwf : wf v = true) :
    ∃ c t, render v = c :: t ∧ isWs c = false ∧ c ≠ ']' ∧ c ≠ '}' ∧ c ≠ ',' := by
  cases v with
  | null => exact ⟨'n', _, rfl, by decide, by decide, by decide, by decide⟩
  | bool b =>
    cases b
    · exact ⟨'f', _, rfl, by decide, by decide, by decide, by decide⟩
    · exact ⟨'t', _, rfl, by decide, by decide, by decide, by decide⟩
  | num d =>
    have hvn : validNum d = true ∧ ∀ c ∈ d, numChar c = true := by
      simpa [wf, List.all_eq_true] using hwf
    obtain ⟨c, d', rfl⟩ : ∃ c d', d = c :: d' := by
      cases d with
      | nil => exact absurd (validNum_ne_nil hvn.1) (by simp)
      | cons c d' => exact ⟨c, d', rfl⟩
    have hc : numChar c = true := hvn.2 c (List.mem_cons_self c d')
    exact ⟨c, d', rfl, numChar_not_ws hc, char_ne_of hc (by decide),
      char_ne_of hc (by decide), char_ne_of hc (by decide)⟩
  | str s => exact ⟨'"', _, rfl, by decide, by decide, by decide, by decide⟩
  | arr xs => exact ⟨'[', _, rfl, by decide, by decide, by decide, by decide⟩
  | obj fs => exact ⟨'{', _, rfl, by decide, by decide, by decide, by decide⟩

/-- Rendered values are nonempty. -/
theorem render_length_pos (v : JVal) (hwf : wf v = true) :
    0 < (render v).length := by
  obtain ⟨c, t, hct, _⟩ := render_head v hwf
  simp [hct]

/-- Parsing the rendering of a valid numeric literal, followed by a
non-numeric continuation, recovers the literal. -/
theorem parseNum_render {d rest : List Char} (hv : validNum d = true)
    (hall : ∀ c ∈ d, numChar c = true)
    (hrest : ∀ c, rest.head? = some c → numChar c = false) :
    parseNum (d ++ rest) = some (.num d, rest) := by
  unfold parseNum
  rw [takeWhile_append_all hall, takeWhile_head_false hrest,
    dropWhile_append_all hall, dropWhile_head_false hrest]
  simp [hv]

theorem parse_render_round (fuel : Nat) :
    (∀ v rest, wf v = true → restOkV rest = true → (render v).length < fuel →
      parseVal fuel (render v ++ rest) = some (v, rest)) ∧
    (∀ vs r2, vs ≠ [] → wfList vs = true → (renderElems vs).length + 1 < fuel →
      parseElems fuel (renderElems vs ++ ']' :: r2) = some (vs, ']' :: r2)) ∧
    (∀ fs r2, fs ≠ [] → wfFields fs = true → (renderFields fs).length + 1 < fuel →
      parseFields fuel (renderFields fs ++ '}' :: r2) = some (fs, '}' :: r2)) := by
  induction fuel with
  | zero =>
    exact ⟨fun v rest _ _ h => absurd h (Nat.not_lt_zero _),
      fun vs r2 _ _ h => absurd h (Nat.not_lt_zero _),
      fun fs r2 _ _ h => absurd h (Nat.not_lt_zero _)⟩
  | succ fuel ih =>
    obtain ⟨ihv, ihe, ihf⟩ := ih
    refine ⟨?_, ?_, ?_⟩
    · intro v rest hwf hro hlen
      cases v with
      | null =>
        show parseVal (fuel + 1) ('n' :: 'u' :: 'l' :: 'l' :: rest) = some (.null, rest)
        rw [parseVal.eq_def]
        simp +decide [skipWs, chomp]
      | bool b =>
        cases b
        · show parseVal (fuel + 1) ('f' :: 'a' :: 'l' :: 's' :: 'e' :: rest) =
            some (.bool false, rest)
          rw [parseVal.eq_def]
          simp +decide [skipWs, chomp]
        · show parseVal (fuel + 1) ('t' :: 'r' :: 'u' :: 'e' :: rest) =
            some (.bool true, rest)
          rw [parseVal.eq_def]
          simp +decide [skipWs, chomp]
      | num d =>
        have hvn : validNum d = true ∧ ∀ c ∈ d, numChar c = true := by
          simpa [wf, List.all_eq_true] using hwf
        obtain ⟨c, d', rfl⟩ : ∃ c d', d = c :: d' := by
          cases d with
          | nil => exact absurd (validNum_ne_nil hvn.1) (by simp)
          | cons c d' => exact ⟨c, d', rfl⟩
        have hc : numChar c = true := hvn.2 c (List.mem_cons_self c d')
        show parseVal (fuel + 1) ((c :: d') ++ rest) = some (.num (c :: d'), rest)
        rw [parseVal.eq_def]
        simp only [List.cons_append]
        rw [skipWs_not_ws (numChar_not_ws hc)]
        simp only [char_ne_of hc (by decide : numChar 'n' = false),
          char_ne_of hc (by decide : numChar 't' = false),
          char_ne_of hc (by decide : numChar 'f' = false),
          char_ne_of hc (by decide : numChar '"' = false),
          char_ne_of hc (by decide : numChar '[' = false),
          char_ne_of hc (by decide : numChar '{' = false),
          hc, if_true, if_false]
        rw [← List.cons_append]
        exact parseNum_render hvn.1 hvn.2 (restOkV_head_not_num hro)
      | str s =>
        have hre : render (.str s) ++ rest = '"' :: (escape s ++ '"' :: rest) := by
          show ('"' :: escape s ++ ['"']) ++ rest = _
          simp
        rw [hre, parseVal.eq_def]
        simp +decide [skipWs, parseStr_escape s rest]
      | arr xs =>
        have hxs : wfList xs = true := by simpa [wf] using hwf
        cases xs with
        | nil =>
          rw [show render (.arr []) ++ rest = '[' :: ']' :: rest from by
            simp [render, renderElems]]
          rw [parseVal.eq_def]
          simp +decide [skipWs]
        | cons x xs' =>
          have hwx : wf x = true ∧ wfList xs' = true := by simpa [wfList] using hxs
          have hre : render (.arr (x :: xs')) ++ rest =
              '[' :: (renderElems (x :: xs') ++ ']' :: rest) := by
            show ('[' :: renderElems (x :: xs') ++ [']']) ++ rest = _
            simp
          obtain ⟨c, t, hct, hws, hc1, hc2, hc3⟩ := render_head x hwx.1
          have hshape : ∃ X, renderElems (x :: xs') ++ ']' :: rest = c :: X := by
            cases xs' with
            | nil => exact ⟨t ++ ']' :: rest, by simp [renderElems, hct]⟩
            | cons y ys =>
              refine ⟨t ++ (',' :: renderElems (y :: ys) ++ ']' :: rest), ?_⟩
              show (render x ++ ',' :: renderElems (y :: ys)) ++ ']' :: rest = _
              simp [hct]
          obtain ⟨X, hX⟩ := hshape
          have hskip : skipWs (renderElems (x :: xs') ++ ']' :: rest) = c :: X := by
            rw [hX]
            exact skipWs_not_ws hws X
          have hlen2 : (renderElems (x :: xs')).length + 1 < fuel := by
            have h5 : (render (.arr (x :: xs'))).length =
                (renderElems (x :: xs')).length + 2 := by
              simp [render]
            omega
          have hE := ihe (x :: xs') rest (by simp) hxs hlen2
          rw [hre, parseVal.eq_def]
          simp +decide [skipWs, hskip, hc1, hE]
      | obj fs =>
        have hfs : wfFields fs = true := by simpa [wf] using hwf
        cases fs with
        | nil =>
          rw [show render (.obj []) ++ rest = '{' :: '}' :: rest from by
            simp [render, renderFields]]
          rw [parseVal.eq_def]
          simp +decide [skipWs]
        | cons f fs' =>
          obtain ⟨k, v⟩ := f
          have hre : render (.obj ((k, v) :: fs')) ++ rest =
              '{' :: (renderFields ((k, v) :: fs') ++ '}' :: rest) := by
            show ('{' :: renderFields ((k, v) :: fs') ++ ['}']) ++ rest = _
            simp
          have hshape : ∃ X, renderFields ((k, v) :: fs') ++ '}' :: rest = '"' :: X := by
            cases fs' with
            | nil =>
              refine ⟨(escape k ++ ['"']) ++ (':' :: render v) ++ '}' :: rest, ?_⟩
              show (('"' :: escape k ++ ['"']) ++ ':' :: render v) ++ '}' :: rest = _
              simp
            | cons f2 fsr =>
              refine ⟨(escape k ++ ['"']) ++ (':' :: render v) ++
                (',' :: renderFields (f2 :: fsr)) ++ '}' :: rest, ?_⟩
              show (('"' :: escape k ++ ['"']) ++ ':' :: render v ++
                ',' :: renderFields (f2 :: fsr)) ++ '}' :: rest = _
              simp
          obtain ⟨X, hX⟩ := hshape
          have hskip : skipWs (renderFields ((k, v) :: fs') ++ '}' :: rest) = '"' :: X := by
            rw [hX]
            exact skipWs_not_ws (by decide) X
          have hlen2 : (renderFields ((k, v) :: fs')).length + 1 < fuel := by
            have h5 : (render (.obj ((k, v) :: fs'))).length =
                (renderFields ((k, v) :: fs')).length + 2 := by
              simp [render]
            omega
          have hF := ihf ((k, v) :: fs') rest (by simp) hfs hlen2
          rw [hre, parseVal.eq_def]
          simp +decide [skipWs, hskip, hF]
    · intro vs r2 hne hwfl hlen
      cases vs with
      | nil => exact absurd rfl hne
      | cons v vs' =>
        cases vs' with
        | nil =>
          have hv : wf v = true := by simpa [wfList] using hwfl
          have hlv : (render v).length < fuel := by
            have h5 : renderElems [v] = render v := by simp [renderElems]
            rw [h5] at hlen
            omega
          have hV := ihv v (']' :: r2) hv (by simp +decide [restOkV]) hlv
          show parseElems (fuel + 1) (renderElems [v] ++ ']' :: r2) = some ([v], ']' :: r2)
          rw [show renderElems [v] = render v from by simp [renderElems]]
          rw [parseElems.eq_def]
          simp +decide [skipWs, hV]
        | cons w ws =>
          have h3 : wf v = true ∧ wf w = true ∧ wfList ws = true := by
            simpa [wfList] using hwfl
          have hww : wfList (w :: ws) = true := by simp [wfList, h3.2.1, h3.2.2]
          have hlsplit : (renderElems (v :: w :: ws)).length =
              (render v).length + 1 + (renderElems (w :: ws)).length := by
            show (render v ++ ',' :: renderElems (w :: ws)).length = _
            simp
            omega
          have hlv : (render v).length < fuel := by omega
          have hlw : (renderElems (w :: ws)).length + 1 < fuel := by
            have := render_length_pos v h3.1
            omega
          have hV := ihv v (',' :: (renderElems (w :: ws) ++ ']' :: r2)) h3.1
            (by simp +decide [restOkV]) hlv
          have hE := ihe (w :: ws) r2 (by simp) hww hlw
          show parseElems (fuel + 1) ((render v ++ ',' :: renderElems (w :: ws)) ++ ']' :: r2)
            = some (v :: w :: ws, ']' :: r2)
          rw [show (render v ++ ',' :: renderElems (w :: ws)) ++ ']' :: r2 =
            render v ++ ',' :: (renderElems (w :: ws) ++ ']' :: r2) from by simp]
          rw [parseElems.eq_def]
          simp +decide [skipWs, hV, hE]
    · intro fs r2 hne hwff hlen
      cases fs with
      | nil => exact absurd rfl hne
      | cons f fs' =>
        obtain ⟨k, v⟩ := f
        cases fs' with
        | nil =>
          have h2 : (∀ x ∈ k, okChar x = true) ∧ wf v = true := by
            simpa [wfFields, List.all_eq_true] using hwff
          have hlv : (render v).length < fuel := by
            have h5 : (renderFields [(k, v)]).length =
                (escape k).length + 3 + (render v).length := by
              show (('"' :: escape k ++ ['"']) ++ ':' :: render v).length = _
              simp
              omega
            omega
          have hV := ihv v ('}' :: r2) h2.2 (by simp +decide [restOkV]) hlv
          show parseFields (fuel + 1) (renderFields [(k, v)] ++ '}' :: r2)
            = some ([(k, v)], '}' :: r2)
          rw [show renderFields [(k, v)] ++ '}' :: r2 =
            '"' :: (escape k ++ '"' :: (':' :: (render v ++ '}' :: r2))) from by
              show (('"' :: escape k ++ ['"']) ++ ':' :: render v) ++ '}' :: r2 = _
              simp]
          rw [parseFields.eq_def]
          simp +decide [skipWs, parseStr_escape k (':' :: (render v ++ '}' :: r2)), hV]
        | cons f2 fsr =>
          have h2 : ((∀ x ∈ k, okChar x = true) ∧ wf v = true) ∧
              ((∀ x ∈ f2.1, okChar x = true) ∧ wf f2.2 = true) ∧ wfFields fsr = true := by
            simpa [wfFields, List.all_eq_true] using hwff
          have hfs2 : wfFields (f2 :: fsr) = true := by
            obtain ⟨k2, v2⟩ := f2
            have ha : ∀ x ∈ k2, okChar x = true := h2.2.1.1
            have hb : wf v2 = true := h2.2.1.2
            simp only [wfFields, Bool.and_eq_true, List.all_eq_true]
            exact ⟨⟨ha, hb⟩, h2.2.2⟩
          have hlsplit : (renderFields ((k, v) :: f2 :: fsr)).length =
              (escape k).length + 4 + (render v).length +
                (renderFields (f2 :: fsr)).length := by
            show (('"' :: escape k ++ ['"']) ++ ':' :: render v ++
              ',' :: renderFields (f2 :: fsr)).length = _
            simp
            omega
          have hlv : (render v).length < fuel := by omega
          have hlw : (renderFields (f2 :: fsr)).length + 1 < fuel := by omega
          have hV := ihv v (',' :: (renderFields (f2 :: fsr) ++ '}' :: r2)) h2.1.2
            (by simp +decide [restOkV]) hlv
          have hF := ihf (f2 :: fsr) r2 (by simp) hfs2 hlw
          show parseFields (fuel + 1) ((renderStr k ++ ':' :: render v ++
            ',' :: renderFields (f2 :: fsr)) ++ '}' :: r2)
            = some ((k, v) :: f2 :: fsr, '}' :: r2)
          rw [show (renderStr k ++ ':' :: render v ++
              ',' :: renderFields (f2 :: fsr)) ++ '}' :: r2 =
            '"' :: (escape k ++ '"' :: (':' :: (render v ++
              ',' :: (renderFields (f2 :: fsr) ++ '}' :: r2)))) from by
              show (('"' :: escape k ++ ['"']) ++ ':' :: render v ++
                ',' :: renderFields (f2 :: fsr)) ++ '}' :: r2 = _
              simp]
          rw [parseFields.eq_def]
          simp +decide [skipWs, hV, hF,
            parseStr_escape k (':' :: (render v ++
              ',' :: (renderFields (f2 :: fsr) ++ '}' :: r2)))]

/-- `pyReplace` preserves `okChar`-ness of string bodies (it only inserts
commas). -/
theorem pyReplace_all_okChar {s : List Char} (h : ∀ c ∈ s, okChar c = true) :
    ∀ c ∈ pyReplace s, okChar c = true := by
  induction s using twoStep with
  | h0 => simp [pyReplace]
  | h1 c => simpa [pyReplace] using h
  | h2 c d t iht ihdt =>
    by_cases hcd : c = '}' ∧ d = '{'
    · obtain ⟨rfl, rfl⟩ := hcd
      rw [pyReplace_pair]
      intro x hx
      simp only [List.mem_cons] at hx
      rcases hx with rfl | rfl | rfl | hx
      · decide
      · decide
      · decide
      · exact iht (fun y hy => h y (by simp [hy])) x hx
    · have heq : pyReplace (c :: d :: t) = c :: pyReplace (d :: t) := by
        simp [pyReplace, hcd]
      rw [heq]
      intro x hx
      simp only [List.mem_cons] at hx
      rcases hx with rfl | hx
      · exact h x (List.mem_cons_self x (d :: t))
      · exact ihdt (fun y hy => h y (List.mem_cons_of_mem c hy)) x hx

mutual

/-- `commaFix` preserves well-formedness. -/
theorem commaFix_wf (v : JVal) (h : wf v = true) : wf (commaFix v) = true := by
  cases v with
  | null => exact h
  | bool b => exact h
  | num d => exact h
  | str s =>
    have hall : ∀ c ∈ s, okChar c = true := by
      simpa [wf, List.all_eq_true] using h
    show wf (.str (pyReplace s)) = true
    simpa [wf, List.all_eq_true] using pyReplace_all_okChar hall
  | arr xs =>
    show wf (.arr (commaFixList xs)) = true
    have := commaFixList_wf xs (by simpa [wf] using h)
    simpa [wf] using this
  | obj fs =>
    show wf (.obj (commaFixFields fs)) = true
    have := commaFixFields_wf fs (by simpa [wf] using h)
    simpa [wf] using this

/-- `commaFixList` preserves well-formedness. -/
theorem commaFixList_wf (xs : List JVal) (h : wfList xs = true) :
    wfList (commaFixList xs) = true := by
  cases xs with
  | nil => exact h
  | cons v vs =>
    have h2 : wf v = true ∧ wfList vs = true := by
      have := (by simpa [wfList] using h : wf v = true ∧ wfList vs = true)
      exact this
    show wfList (commaFix v :: commaFixList vs) = true
    simp only [wfList, Bool.and_eq_true]
    exact ⟨commaFix_wf v h2.1, commaFixList_wf vs h2.2⟩

/-- `commaFixFields` preserves well-formedness. -/
theorem commaFixFields_wf (fs : List (List Char × JVal)) (h : wfFields fs = true) :
    wfFields (commaFixFields fs) = true := by
  cases fs with
  | nil => exact h
  | cons f fs' =>
    obtain ⟨k, v⟩ := f
    have h2 : ((∀ x ∈ k, okChar x = true) ∧ wf v = true) ∧ wfFields fs' = true := by
      simpa [wfFields, List.all_eq_true] using h
    show wfFields ((pyReplace k, commaFix v) :: commaFixFields fs') = true
    simp only [wfFields, Bool.and_eq_true, List.all_eq_true]
    exact ⟨⟨pyReplace_all_okChar h2.1.1, commaFix_wf v h2.1.2⟩,
      commaFixFields_wf fs' h2.2⟩

end

/-- `commaFixList` is `List.map commaFix`. -/
theorem commaFixList_eq_map (xs : List JVal) : commaFixList xs = xs.map commaFix := by
  induction xs with
  | nil => rfl
  | cons v vs ih => simp [commaFixList, ih]

/-- Pointwise well-formedness gives `wfList`. -/
theorem wfList_of_forall {xs : List JVal} (h : ∀ o ∈ xs, wf o = true) :
    wfList xs = true := by
  induction xs with
  | nil => rfl
  | cons v vs ih =>
    simp only [wfList, Bool.and_eq_true]
    exact ⟨h v (List.mem_cons_self v vs),
      ih (fun o ho => h o (List.mem_cons_of_mem v ho))⟩

/-- The splitter on a batch whose joined lines are the concatenated
renderings of well-formed objects returns exactly one record per object,
in the original order; each returned record is the corresponding object
with its string bodies comma-repaired (the identity whenever no string
body contains a `\x7d\x7b` adjacency). -/
theorem splitBatch_spec (objs : List JVal) (lines : List (List Char))
    (hobj : ∀ o ∈ objs, isObjV o = true) (hwfo : ∀ o ∈ objs, wf o = true)
    (hjoin : lines.flatten = (objs.map render).flatten) :
    splitBatch lines = some (objs.map commaFix) := by
  have hwarr : wf (.arr (commaFixList objs)) = true := by
    have := commaFixList_wf objs (wfList_of_forall hwfo)
    simpa [wf] using this
  have hW : '[' :: pyReplace lines.flatten ++ [']'] =
      render (.arr (commaFixList objs)) := by
    rw [hjoin, pyReplace_joined objs hobj hwfo]
    simp [render]
  unfold splitBatch loads
  rw [hW]
  have hrt := (parse_render_round ((render (.arr (commaFixList objs))).length + 1)).1
    (.arr (commaFixList objs)) [] hwarr (by decide) (Nat.lt_succ_self _)
  rw [List.append_nil] at hrt
  rw [hrt]
  simp [skipWs, commaFixList_eq_map]

/-- C1 (amended): the classifier evaluates the shape discriminators in the
fixed order (rebuild, cpu-load, memory, process, disk, ingest, operator)
but does not stop at the first match: every branch whose discriminator
holds emits its instructions.  A record satisfying both the cpu-load and
the process discriminators (and carrying the fields those branches read)
yields the three cpu-load updates followed by the four process updates. -/
theorem C1_amended (fs : List (List Char × JVal))
    (l1 l2 l3 p1 p2 p3 p4 : List Char)
    (hqp : hasKey (.obj fs) (toCh "queued_partitions") = false)
    (h1 : dictLookup fs (toCh "loadavg_1m") = some (.num l1))
    (h2 : dictLookup fs (toCh "loadavg_5m") = some (.num l2))
    (h3 : dictLookup fs (toCh "loadavg_15m") = some (.num l3))
    (htb : hasKey (.obj fs) (toCh "total_bytes") = false)
    (h4 : dictLookup fs (toCh "swap_space_usage") = some (.num p1))
    (h5 : dictLookup fs (toCh "open_fds") = some (.num p2))
    (h6 : dictLookup fs (toCh "current_memory_usage") = some (.num p3))
    (h7 : dictLookup fs (toCh "peak_memory_usage") = some (.num p4))
    (hpath : hasKey (.obj fs) (toCh "path") = false)
    (hsch : hasKey (.obj fs) (toCh "schema_id") = false)
    (hpid : hasKey (.obj fs) (toCh "pipeline_id") = false) :
    mapItem (.obj fs) =
      ([.setGauge .tenzir_loadavg_1m [] (.num l1),
        .setGauge .tenzir_loadavg_5m [] (.num l2),
        .setGauge .tenzir_loadavg_15m [] (.num l3),
        .setGauge .tenzir_swap_space_usage [] (.num p1),
        .setGauge .tenzir_open_fds [] (.num p2),
        .setGauge .tenzir_current_memory_usage [] (.num p3),
        .setGauge .tenzir_peak_memory_usage [] (.num p4)], none) := by
  have hk1 : hasKey (.obj fs) (toCh "loadavg_1m") = true := by simp [hasKey, h1]
  have hk4 : hasKey (.obj fs) (toCh "swap_space_usage") = true := by simp [hasKey, h4]
  simp [mapItem, isObjV, hqp, hk1, hk4, htb, hpath, hsch, hpid,
    cpuBranch, processBranch, withE, getItem, h1, h2, h3, h4, h5, h6, h7,
    gaugeSet, thenE, labelNames]

theorem mapItem_operator (fs ifs ofs : List (List Char × JVal))
    (pid d1 d2 d3 d4 d5 d6 iu ie ib ou oe ob : List Char)
    (hqp : hasKey (.obj fs) (toCh "queued_partitions") = false)
    (hl1 : hasKey (.obj fs) (toCh "loadavg_1m") = false)
    (htb : hasKey (.obj fs) (toCh "total_bytes") = false)
    (hsw : hasKey (.obj fs) (toCh "swap_space_usage") = false)
    (hpath : hasKey (.obj fs) (toCh "path") = false)
    (hsch : hasKey (.obj fs) (toCh "schema_id") = false)
    (hpid : dictLookup fs (toCh "pipeline_id") = some (.str pid))
    (htr : hasKey (.obj fs) (toCh "transformation") = true)
    (hd1 : dictLookup fs (toCh "duration") = some (.str d1))
    (hd2 : dictLookup fs (toCh "starting_duration") = some (.str d2))
    (hd3 : dictLookup fs (toCh "processing_duration") = some (.str d3))
    (hd4 : dictLookup fs (toCh "scheduled_duration") = some (.str d4))
    (hd5 : dictLookup fs (toCh "running_duration") = some (.str d5))
    (hd6 : dictLookup fs (toCh "paused_duration") = some (.str d6))
    (hf1 : pyFloatOk (stripLower d1) = true)
    (hf2 : pyFloatOk (stripLower d2) = true)
    (hf3 : pyFloatOk (stripLower d3) = true)
    (hf4 : pyFloatOk (stripLower d4) = true)
    (hf5 : pyFloatOk (stripLower d5) = true)
    (hf6 : pyFloatOk (stripLower d6) = true)
    (hin : dictLookup fs (toCh "input") = some (.obj ifs))
    (hiu : dictLookup ifs (toCh "unit") = some (.str iu))
    (hie : dictLookup ifs (toCh "elements") = some (.num ie))
    (hib : dictLookup ifs (toCh "approx_bytes") = some (.num ib))
    (hout : dictLookup fs (toCh "output") = some (.obj ofs))
    (hou : dictLookup ofs (toCh "unit") = some (.str ou))
    (hoe : dictLookup ofs (toCh "elements") = some (.num oe))
    (hob : dictLookup ofs (toCh "approx_bytes") = some (.num ob)) :
    mapItem (.obj fs) =
      ([.setGauge .tenzir_operator_run [pid] (.str (stripLower d1)),
        .setGauge .tenzir_operator_duration [pid] (.str (stripLower d2)),
        .setGauge .tenzir_operator_starting_duration [pid] (.str (stripLower d2)),
        .setGauge .tenzir_operator_processing_duration [pid] (.str (stripLower d3)),
        .setGauge .tenzir_operator_scheduled_duration [pid] (.str (stripLower d4)),
        .setGauge .tenzir_operator_running_duration [pid] (.str (stripLower d5)),
        .setGauge .tenzir_operator_paused_duration [pid] (.str (stripLower d6)),
        .setGauge .tenzir_operator_input_elements [pid, iu] (.num ie),
        .setGauge .tenzir_operator_output_elements [pid, ou] (.num oe),
        .setGauge .tenzir_operator_input_bytes [pid, iu] (.num ib),
        .setGauge .tenzir_operator_output_bytes [pid, ou] (.num ob),
        .setInfo .tenzir_operator_input_unit [pid]
          [(toCh "tenzir_operator_input_unit", .str iu)],
        .setInfo .tenzir_operator_output_unit [pid]
          [(toCh "tenzir_operator_input_unit", .str ou)],
        .setInfo .tenzir_operator_pipeline_id [] [(toCh "pipeline_id", .str pid)]],
       none) := by
  have hkp : hasKey (.obj fs) (toCh "pipeline_id") = true := by simp [hasKey, hpid]
  simp [mapItem, isObjV, hqp, hl1, htb, hsw, hpath, hsch, hkp, htr,
    operatorBranch, withE, getItem, hpid, hd1, hd2, hd3, hd4, hd5, hd6,
    reSubLower, hf1, hf2, hf3, hf4, hf5, hf6, hin, hiu, hie, hib, hout,
    hou, hoe, hob, gaugeSet, infoSet, thenE, labelNames, pyStr]

/-- C2 (amended): when a record's mapping raises (for example a record
matching a shape but lacking a required field), the updates already
emitted for that record stay applied, the rest of its emission is
skipped, and the exception propagates: no subsequent record of the batch
is processed. -/
theorem C2_amended (pre : List JVal) (r : JVal) (rest : List JVal) (e : PyErr)
    (hpre : ∀ x ∈ pre, (mapItem x).2 = none) (he : (mapItem r).2 = some e) :
    processItems (pre ++ r :: rest) =
      ((pre.map (fun x => (mapItem x).1 ++ [Instr.push])).flatten ++ (mapItem r).1,
       some e) := by
  induction pre with
  | nil =>
    simp only [List.nil_append, List.map_nil, List.flatten_nil]
    show processItems (r :: rest) = ((mapItem r).1, some e)
    simp [processItems, processItem, thenE, he]
  | cons x pre' ih =>
    have hx : (mapItem x).2 = none := hpre x (by simp)
    have ih2 := ih (fun y hy => hpre y (by simp [hy]))
    simp only [List.cons_append, List.map_cons, List.flatten_cons]
    simp [processItems, processItem, thenE, hx, ih2]

/-- C7 (amended): when the repaired payload is not valid JSON, no record
is processed, but the caller does not receive the structured one-error
result: the `json.JSONDecodeError` escapes `fetch` uncaught (the bare
`except` only covers decoding of the request body). -/
theorem C7_amended (lines : List (List Char)) (h : splitBatch lines = none) :
    fetch (some lines) = ([], .raised .jsonDecodeError) := by
  simp [fetch, h]

/-! ## Claim theorems -/

/-- C1 counterexample: the record `recCpuProcess` satisfies both the
cpu-load discriminator (`loadavg_1m`) and the process discriminator
(`swap_space_usage`), and its mapping emits the instructions of BOTH
shapes — not of exactly one shape — refuting the first-match claim. -/
theorem C1_counterexample :
    mapItem recCpuProcess =
      ([.setGauge .tenzir_loadavg_1m [] (.num (toCh "1")),
        .setGauge .tenzir_loadavg_5m [] (.num (toCh "2")),
        .setGauge .tenzir_loadavg_15m [] (.num (toCh "3")),
        .setGauge .tenzir_swap_space_usage [] (.num (toCh "4")),
        .setGauge .tenzir_open_fds [] (.num (toCh "5")),
        .setGauge .tenzir_current_memory_usage [] (.num (toCh "6")),
        .setGauge .tenzir_peak_memory_usage [] (.num (toCh "7"))], none) ∧
    Instr.setGauge .tenzir_loadavg_1m [] (.num (toCh "1")) ∈ (mapItem recCpuProcess).1 ∧
    Instr.setGauge .tenzir_swap_space_usage [] (.num (toCh "4")) ∈ (mapItem recCpuProcess).1 := by
  refine ⟨rfl, ?_, ?_⟩
  · show Instr.setGauge .tenzir_loadavg_1m [] (.num (toCh "1")) ∈
      [Instr.setGauge .tenzir_loadavg_1m [] (.num (toCh "1")),
       .setGauge .tenzir_loadavg_5m [] (.num (toCh "2")),
       .setGauge .tenzir_loadavg_15m [] (.num (toCh "3")),
       .setGauge .tenzir_swap_space_usage [] (.num (toCh "4")),
       .setGauge .tenzir_open_fds [] (.num (toCh "5")),
       .setGauge .tenzir_current_memory_usage [] (.num (toCh "6")),
       .setGauge .tenzir_peak_memory_usage [] (.num (toCh "7"))]
    exact List.mem_cons_self _ _
  · show Instr.setGauge .tenzir_swap_space_usage [] (.num (toCh "4")) ∈
      [Instr.setGauge .tenzir_loadavg_1m [] (.num (toCh "1")),
       .setGauge .tenzir_loadavg_5m [] (.num (toCh "2")),
       .setGauge .tenzir_loadavg_15m [] (.num (toCh "3")),
       .setGauge .tenzir_swap_space_usage [] (.num (toCh "4")),
       .setGauge .tenzir_open_fds [] (.num (toCh "5")),
       .setGauge .tenzir_current_memory_usage [] (.num (toCh "6")),
       .setGauge .tenzir_peak_memory_usage [] (.num (toCh "7"))]
    exact List.Mem.tail _ (List.Mem.tail _ (List.Mem.tail _ (List.mem_cons_self _ _)))

/-- C1 witness: `C1_amended` applied to the concrete record
`recCpuProcess`, all hypotheses discharged by evaluation. -/
theorem C1_witness :
    mapItem recCpuProcess =
      ([.setGauge .tenzir_loadavg_1m [] (.num (toCh "1")),
        .setGauge .tenzir_loadavg_5m [] (.num (toCh "2")),
        .setGauge .tenzir_loadavg_15m [] (.num (toCh "3")),
        .setGauge .tenzir_swap_space_usage [] (.num (toCh "4")),
        .setGauge .tenzir_open_fds [] (.num (toCh "5")),
        .setGauge .tenzir_current_memory_usage [] (.num (toCh "6")),
        .setGauge .tenzir_peak_memory_usage [] (.num (toCh "7"))], none) :=
  C1_amended
    [(toCh "loadavg_1m", .num (toCh "1")), (toCh "loadavg_5m", .num (toCh "2")),
     (toCh "loadavg_15m", .num (toCh "3")), (toCh "swap_space_usage", .num (toCh "4")),
     (toCh "open_fds", .num (toCh "5")), (toCh "current_memory_usage", .num (toCh "6")),
     (toCh "peak_memory_usage", .num (toCh "7"))]
    (toCh "1") (toCh "2") (toCh "3") (toCh "4") (toCh "5") (toCh "6") (toCh "7")
    rfl rfl rfl rfl rfl rfl rfl rfl rfl rfl rfl rfl

/-- C2 counterexample: in the batch `[recOperatorNoInput, recCpu]` the
first record matches the operator shape but lacks `input`; its seven
duration gauges are set, then the `KeyError` aborts the WHOLE batch — the
second record, which alone maps successfully, is never processed. -/
theorem C2_counterexample :
    processItems [recOperatorNoInput, recCpu] =
      ([.setGauge .tenzir_operator_run [toCh "p1"] (.str (toCh "1")),
        .setGauge .tenzir_operator_duration [toCh "p1"] (.str (toCh "2")),
        .setGauge .tenzir_operator_starting_duration [toCh "p1"] (.str (toCh "2")),
        .setGauge .tenzir_operator_processing_duration [toCh "p1"] (.str (toCh "3")),
        .setGauge .tenzir_operator_scheduled_duration [toCh "p1"] (.str (toCh "4")),
        .setGauge .tenzir_operator_running_duration [toCh "p1"] (.str (toCh "5")),
        .setGauge .tenzir_operator_paused_duration [toCh "p1"] (.str (toCh "6"))],
       some (.keyError (toCh "input"))) ∧
    processItems [recCpu] =
      ([.setGauge .tenzir_loadavg_1m [] (.num (toCh "1")),
        .setGauge .tenzir_loadavg_5m [] (.num (toCh "2")),
        .setGauge .tenzir_loadavg_15m [] (.num (toCh "3")), .push], none) :=
  ⟨rfl, rfl⟩

/-- C2 witness: `C2_amended` applied to the concrete batch
`[recOperatorNoInput, recCpu]` with an empty prefix. -/
theorem C2_witness :
    processItems ([] ++ recOperatorNoInput :: [recCpu]) =
      ((([] : List JVal).map (fun x => (mapItem x).1 ++ [Instr.push])).flatten ++
        (mapItem recOperatorNoInput).1, some (.keyError (toCh "input"))) :=
  C2_amended [] recOperatorNoInput [recCpu] (.keyError (toCh "input"))
    (fun x hx => absurd hx (List.not_mem_nil x)) rfl

/-- C3 counterexample: normalising the duration token `"1e5ms"` removes
the exponent marker `e` along with the unit, yielding `"15"`, not the
claimed `"1e5"`. -/
theorem C3_counterexample :
    stripLower (toCh "1e5ms") = toCh "15" ∧ toCh "15" ≠ toCh "1e5" :=
  ⟨rfl, by decide⟩

/-- C3 (amended): duration normalisation removes EVERY lowercase ASCII
letter wherever it occurs — trailing units, but also an interior
lowercase exponent marker — and keeps all other characters (digits,
signs, dots, uppercase). -/
theorem C3_amended (s : List Char) :
    stripLower s = s.filter (fun c => ! isLowerAZ c) :=
  stripLower_eq_filter s

/-- C4: evaluating the operator mapping at a record whose six durations
normalise to 1..6 shows the source's own pairing: the `run` gauge
receives the `duration` value and the `duration` gauge receives the
`starting_duration` value "2" — although the record's `duration`
normalises to "1".  This contradicts the declared meaning of the metrics
(`tenzir_operator_run`: "The number of the run…"). -/
theorem C4_theorem :
    (mapItem recOperator).1.take 3 =
      [.setGauge .tenzir_operator_run [toCh "p1"] (.str (toCh "1")),
       .setGauge .tenzir_operator_duration [toCh "p1"] (.str (toCh "2")),
       .setGauge .tenzir_operator_starting_duration [toCh "p1"] (.str (toCh "2"))] ∧
    stripLower (toCh "1ms") = toCh "1" ∧ toCh "2" ≠ toCh "1" :=
  ⟨rfl, rfl, by decide⟩

/-- C5: for every batch of N well-formed JSON objects rendered and
concatenated with no separators — spread across lines in any way whose
join is that concatenation — the splitter returns exactly N parsed
objects, in the original order (the k-th output is the k-th input with
its string bodies comma-repaired, the identity for bodies without a
`\x7d\x7b` adjacency). -/
theorem C5_theorem (objs : List JVal) (lines : List (List Char))
    (hobj : ∀ o ∈ objs, isObjV o = true) (hwfo : ∀ o ∈ objs, wf o = true)
    (hjoin : lines.flatten = (objs.map render).flatten) :
    splitBatch lines = some (objs.map commaFix) ∧
    (objs.map commaFix).length = objs.length :=
  ⟨splitBatch_spec objs lines hobj hwfo hjoin, by simp⟩

/-- C5 witness: two objects rendered back to back with no separator,
split across two lines at an arbitrary point, yield exactly those two
objects in order. -/
theorem C5_witness :
    splitBatch [toCh "\x7b\"a\":1\x7d\x7b\"b\"", toCh ":2\x7d"] =
      some ([objA, objB].map commaFix) ∧
    ([objA, objB].map commaFix).length = [objA, objB].length :=
  C5_theorem [objA, objB] [toCh "\x7b\"a\":1\x7d\x7b\"b\"", toCh ":2\x7d"]
    (by decide) (by decide) (by decide)

/-- C6: on the record with both `path` and `total_bytes`, the memory
branch indeed never fires (no instruction at all is emitted), but the
disk branch does not produce path-labelled updates either: the source
calls `set` on the path-labelled gauges without `.labels(...)`, which
raises `ValueError` — even though the gauges are declared with a `path`
label. -/
theorem C6_theorem :
    mapItem recDisk = ([], some .valueError) ∧
    labelNames .tenzir_disk_total_bytes = [toCh "path"] :=
  ⟨rfl, rfl⟩

/-- C7 counterexample: on an unparsable payload, `fetch` does not return
the structured one-error result — the decode error escapes as an
exception (no record is processed, but the batch fails with an uncaught
`JSONDecodeError` rather than `(\x7b"error": 1\x7d)`). -/
theorem C7_counterexample :
    fetch (some [toCh "notjson"]) = ([], .raised .jsonDecodeError) ∧
    fetch (some [toCh "notjson"]) ≠ ([], .errorJson 1) :=
  ⟨rfl, fun h => absurd (congrArg Prod.snd h) (by decide)⟩

/-- C7 witness: `C7_amended` applied to the unparsable payload
`"notjson"`. -/
theorem C7_witness :
    fetch (some [toCh "notjson"]) = ([], .raised .jsonDecodeError) :=
  C7_amended [toCh "notjson"] rfl

/-- C8 counterexample: a payload whose two lines each parse as one
independent JSON object (`json.loads` accepts the trailing space of the
first line) is REJECTED by the splitter: joining the lines leaves
`\x7d \x7b` with no adjacency to repair, the array parse fails, and no
per-line fallback exists — `fetch` raises instead of accepting. -/
theorem C8_counterexample :
    loads lineObjASpace = some objA ∧
    loads lineObjB = some objB ∧
    splitBatch [lineObjASpace, lineObjB] = none ∧
    fetch (some [lineObjASpace, lineObjB]) = ([], .raised .jsonDecodeError) :=
  ⟨rfl, rfl, rfl, rfl⟩

/-- C8 (amended): a payload in which each line is exactly one rendered
JSON object (no surrounding whitespace) is accepted by the whole-payload
array repair alone — joining the lines creates the `\x7d\x7b`
adjacencies it fixes — yielding one parsed object per line; there is no
per-line fallback parse. -/
theorem C8_amended (objs : List JVal)
    (hobj : ∀ o ∈ objs, isObjV o = true) (hwfo : ∀ o ∈ objs, wf o = true) :
    splitBatch (objs.map render) = some (objs.map commaFix) ∧
    (objs.map commaFix).length = (objs.map render).length :=
  ⟨splitBatch_spec objs (objs.map render) hobj hwfo rfl, by simp⟩

/-- C8 witness: `C8_amended` at the two-line payload whose lines are the
renderings of `objA` and `objB`. -/
theorem C8_witness :
    splitBatch ([objA, objB].map render) = some ([objA, objB].map commaFix) ∧
    ([objA, objB].map commaFix).length = ([objA, objB].map render).length :=
  C8_amended [objA, objB] (by decide) (by decide)

/-- C9: duration normalisation is idempotent — applying the lowercase
stripper to any already-stripped string returns it unchanged (stated for
all inputs: the second application is always the identity on the first's
output). -/
theorem C9_theorem (s : List Char) :
    stripLower (stripLower s) = stripLower s := by
  simp only [stripLower_eq_filter, List.filter_filter]
  exact List.filter_congr (fun c _ => by cases h : isLowerAZ c <;> simp [h])

/-- C10: for every record taking the operator branch (with all required
fields present and well-typed), the info instruction emitted for the
`tenzir_operator_output_unit` metric carries its value under the field
key `"tenzir_operator_input_unit"` — the input metric's key — while the
value itself is the record's OUTPUT unit. -/
theorem C10_theorem (fs ifs ofs : List (List Char × JVal))
    (pid d1 d2 d3 d4 d5 d6 iu ie ib ou oe ob : List Char)
    (hqp : hasKey (.obj fs) (toCh "queued_partitions") = false)
    (hl1 : hasKey (.obj fs) (toCh "loadavg_1m") = false)
    (htb : hasKey (.obj fs) (toCh "total_bytes") = false)
    (hsw : hasKey (.obj fs) (toCh "swap_space_usage") = false)
    (hpath : hasKey (.obj fs) (toCh "path") = false)
    (hsch : hasKey (.obj fs) (toCh "schema_id") = false)
    (hpid : dictLookup fs (toCh "pipeline_id") = some (.str pid))
    (htr : hasKey (.obj fs) (toCh "transformation") = true)
    (hd1 : dictLookup fs (toCh "duration") = some (.str d1))
    (hd2 : dictLookup fs (toCh "starting_duration") = some (.str d2))
    (hd3 : dictLookup fs (toCh "processing_duration") = some (.str d3))
    (hd4 : dictLookup fs (toCh "scheduled_duration") = some (.str d4))
    (hd5 : dictLookup fs (toCh "running_duration") = some (.str d5))
    (hd6 : dictLookup fs (toCh "paused_duration") = some (.str d6))
    (hf1 : pyFloatOk (stripLower d1) = true)
    (hf2 : pyFloatOk (stripLower d2) = true)
    (hf3 : pyFloatOk (stripLower d3) = true)
    (hf4 : pyFloatOk (stripLower d4) = true)
    (hf5 : pyFloatOk (stripLower d5) = true)
    (hf6 : pyFloatOk (stripLower d6) = true)
    (hin : dictLookup fs (toCh "input") = some (.obj ifs))
    (hiu : dictLookup ifs (toCh "unit") = some (.str iu))
    (hie : dictLookup ifs (toCh "elements") = some (.num ie))
    (hib : dictLookup ifs (toCh "approx_bytes") = some (.num ib))
    (hout : dictLookup fs (toCh "output") = some (.obj ofs))
    (hou : dictLookup ofs (toCh "unit") = some (.str ou))
    (hoe : dictLookup ofs (toCh "elements") = some (.num oe))
    (hob : dictLookup ofs (toCh "approx_bytes") = some (.num ob)) :
    Instr.setInfo .tenzir_operator_output_unit [pid]
      [(toCh "tenzir_operator_input_unit", .str ou)] ∈ (mapItem (.obj fs)).1 := by
  rw [mapItem_operator fs ifs ofs pid d1 d2 d3 d4 d5 d6 iu ie ib ou oe ob
    hqp hl1 htb hsw hpath hsch hpid htr hd1 hd2 hd3 hd4 hd5 hd6
    hf1 hf2 hf3 hf4 hf5 hf6 hin hiu hie hib hout hou hoe hob]
  simp

/-- C10 witness: `C10_theorem` at the concrete operator record
`recOperator`, whose output unit is `"bytes"`. -/
theorem C10_witness :
    Instr.setInfo .tenzir_operator_output_unit [toCh "p1"]
      [(toCh "tenzir_operator_input_unit", .str (toCh "bytes"))] ∈
      (mapItem recOperator).1 :=
  C10_theorem
    [(toCh "pipeline_id", .str (toCh "p1")), (toCh "transformation", .str (toCh "t")),
     (toCh "duration", .str (toCh "1ms")), (toCh "starting_duration", .str (toCh "2ms")),
     (toCh "processing_duration", .str (toCh "3ms")),
     (toCh "scheduled_duration", .str (toCh "4ms")),
     (toCh "running_duration", .str (toCh "5ms")),
     (toCh "paused_duration", .str (toCh "6ms")),
     (toCh "input", .obj [(toCh "unit", .str (toCh "events")),
       (toCh "elements", .num (toCh "10")), (toCh "approx_bytes", .num (toCh "100"))]),
     (toCh "output", .obj [(toCh "unit", .str (toCh "bytes")),
       (toCh "elements", .num (toCh "20")), (toCh "approx_bytes", .num (toCh "200"))])]
    [(toCh "unit", .str (toCh "events")), (toCh "elements", .num (toCh "10")),
     (toCh "approx_bytes", .num (toCh "100"))]
    [(toCh "unit", .str (toCh "bytes")), (toCh "elements", .num (toCh "20")),
     (toCh "approx_bytes", .num (toCh "200"))]
    (toCh "p1") (toCh "1ms") (toCh "2ms") (toCh "3ms") (toCh "4ms") (toCh "5ms")
    (toCh "6ms") (toCh "events") (toCh "10") (toCh "100") (toCh "bytes") (toCh "20")
    (toCh "200")
    rfl rfl rfl rfl rfl rfl rfl rfl rfl rfl rfl rfl rfl rfl
    rfl rfl rfl rfl rfl rfl rfl rfl rfl rfl rfl rfl rfl rfl
